import Mathlib

/-!
Verification development for the discovery engine of the paystub-service
repository (backend/app/services/discovery/buckets.py,
backend/app/scheduler/discovery_bucket_job.py,
backend/app/services/aggregation/aggregate.py).

The embedding models the database tables touched by the poll worker as lists
of rows, timestamps as integer seconds (UTC), and the per-bucket poll
`run_poll_for_bucket` as a pure function from a database state and a fetched
snapshot to a new database state.  Display-only denormalized columns
(venue_name, payload_json, time_bucket, slot_date, slot_time, provider,
neighborhood, price_range) do not influence any control flow proved about
here and are omitted from the row structures.  Python's `uuid.uuid4()` run
ids are modelled as caller-supplied strings, and `datetime.now(timezone.utc)`
as an integer parameter `now`.
-/

/-- Byte-wise lexicographic comparison of character lists, matching Python's
code-point string comparison used on `bucket_id` values in the prune paths. -/
def strLtChars (a b : List Char) : Bool :=
  match a, b with
  | [], [] => false
  | [], _ :: _ => true
  | _ :: _, [] => false
  | c :: cs, d :: ds =>
      if c.toNat < d.toNat then true
      else if d.toNat < c.toNat then false
      else strLtChars cs ds

/-- `a < b` on strings by code points (Python string comparison). -/
def strLt (a b : String) : Bool := strLtChars a.data b.data

/-- `a ≤ b` on strings by code points. -/
def strLe (a b : String) : Bool := !(strLt b a)

/-- Insert a string into a list keeping the `strLe` order. -/
def insertSorted (x : String) : List String → List String
  | [] => [x]
  | y :: ys => if strLe x y then x :: y :: ys else y :: insertSorted x ys

/-- `sorted(...)` on a list of strings (Python `sorted`, code-point order). -/
def sortStrings (l : List String) : List String := l.foldr insertSorted []

/-- Truncation of a UTC timestamp (seconds) to its minute, modelling
`now.strftime(%Y-%m-%dT%H:%M)` in the drop-event dedupe key. -/
def minuteFloor (t : Int) : Int := Int.ediv t 60

/-- One normalized provider result (`fetch_for_bucket` row): the model keeps
`slot_id` and `venue_id`; the payload/display fields are omitted. -/
structure FetchRow where
  slotId : String
  venueId : Option String
deriving DecidableEq, Repr

/-- `discovery_buckets` row.  The `*_slot_ids_json` columns are modelled as
already-decoded optional string lists (`none` = SQL NULL). -/
structure BucketRow where
  bucketId : String
  dateStr : String
  timeSlot : String
  baselineSlotIds : Option (List String)
  prevSlotIds : Option (List String)
  scannedAt : Option Int
deriving DecidableEq, Repr

/-- `slot_availability` projection row (claim-relevant columns). -/
structure SlotAvailabilityRow where
  bucketId : String
  slotId : String
  state : String
  openedAt : Int
  closedAt : Option Int
  lastSeenAt : Option Int
  venueId : Option String
  runId : Option String
  updatedAt : Int
deriving DecidableEq, Repr

/-- The content of a drop event's `dedupe_key`.  The source serializes it as
the string `bucket_id|slot_id|iso_minute(now)`; bucket ids and slot ids
contain no `|` (dates/times and hex digests), so the key is faithfully the
triple of its components. -/
structure DedupeKey where
  keyBucket : String
  keySlot : String
  keyMinute : Int
deriving DecidableEq, Repr

/-- `drop_events` row (claim-relevant columns). -/
structure DropEventRow where
  bucketId : String
  slotId : String
  openedAt : Int
  venueId : Option String
  dedupeKey : DedupeKey
  pushSentAt : Option Int
deriving DecidableEq, Repr

/-- `availability_state` row (claim-relevant columns). -/
structure AvailabilityStateRow where
  id : Nat
  bucketId : String
  slotId : String
  openedAt : Int
  closedAt : Option Int
  durationSeconds : Option Int
  venueId : Option String
  aggregatedAt : Option Int
deriving DecidableEq, Repr

/-- In-memory closed-event record staged for aggregation (`ClosedEventData`
namedtuple; venue_name/slot_date omitted). -/
structure ClosedEventData where
  venueId : Option String
  dropDurationSeconds : Int
  bucketId : String
  sessionId : Nat
deriving DecidableEq, Repr

/-- The database state touched by the discovery engine.  `nextStateId` models
the `availability_state.id` autoincrement sequence. -/
structure DB where
  buckets : List BucketRow
  slotAvailability : List SlotAvailabilityRow
  dropEvents : List DropEventRow
  availabilityState : List AvailabilityStateRow
  nextStateId : Nat
deriving DecidableEq, Repr

/-- The empty store. -/
def DB.empty : DB :=
  { buckets := [], slotAvailability := [], dropEvents := [], availabilityState := [],
    nextStateId := 0 }

/-- Environment-driven knobs used by the poll (`NOTIFIED_DEDUPE_MINUTES`). -/
structure PollConfig where
  dedupeMinutes : Int
deriving DecidableEq, Repr

/-- Result of one `run_poll_for_bucket` invocation: the new database state,
the `drops_emitted` return value, `len(curr_set)`, and the staged
closed-event records handed to the aggregator after commit. -/
structure PollResult where
  db : DB
  emitted : Nat
  currCount : Nat
  toAggregate : List ClosedEventData
deriving DecidableEq, Repr

/-- `curr_set = {r[slot_id] for r in rows}`: first-occurrence list of the
distinct slot ids of the fetched rows. -/
def currSetOf (rows : List FetchRow) : List String :=
  (rows.map (fun r => r.slotId)).dedup

/-- `by_slot = {r[slot_id]: r for r in rows}` lookup; a Python dict keeps the
last row for a duplicated key, hence the reverse search. -/
def bySlot (rows : List FetchRow) (sid : String) : Option FetchRow :=
  rows.reverse.find? (fun r => r.slotId == sid)

/-- `str((by_slot.get(sid) or {}).get(venue_id) or "")`. -/
def venueStrOf (rows : List FetchRow) (sid : String) : String :=
  ((bySlot rows sid).bind FetchRow.venueId).getD ""

/-- `_parse_slot_ids_json`: decode the stored array, keep truthy strings,
as a set (first-occurrence dedup). -/
def parseSlotIds (o : Option (List String)) : List String :=
  ((o.getD []).filter (fun s => !(s == ""))).dedup

/-- `_build_slot_availability_row`: one open-state projection row dict. -/
def buildSlotAvailabilityRow (bid sid : String) (r : Option FetchRow) (now : Int)
    (runId : String) : SlotAvailabilityRow :=
  { bucketId := bid, slotId := sid, state := "open", openedAt := now, closedAt := none,
    lastSeenAt := some now, venueId := r.bind FetchRow.venueId, runId := some runId,
    updatedAt := now }

/-- Key equality on the `(bucket_id, slot_id)` primary key of the projection. -/
def projKeyMatch (bid sid : String) (t : SlotAvailabilityRow) : Bool :=
  t.bucketId == bid && t.slotId == sid

/-- `INSERT ... ON CONFLICT (bucket_id, slot_id) DO UPDATE SET <every mutable
column from excluded, closed_at = NULL> WHERE slot_availability.updated_at <
excluded.updated_at`.  Every updated column takes the incoming value and
`closed_at` is cleared, so an overwrite replaces the row by the incoming one. -/
def upsertProjRow (table : List SlotAvailabilityRow) (new : SlotAvailabilityRow) :
    List SlotAvailabilityRow :=
  if table.any (projKeyMatch new.bucketId new.slotId) then
    table.map (fun t =>
      if projKeyMatch new.bucketId new.slotId t then
        (if t.updatedAt < new.updatedAt then new else t)
      else t)
  else table ++ [new]

/-- Batched bulk upsert of projection rows. -/
def applyProjUpserts (table : List SlotAvailabilityRow)
    (newRows : List SlotAvailabilityRow) : List SlotAvailabilityRow :=
  newRows.foldl upsertProjRow table

/-- `_bootstrap_slot_availability`: write all of `curr_set` as open projection
rows (no-op on an empty snapshot); rows lacking a fetch entry are skipped. -/
def bootstrapSlotAvailability (table : List SlotAvailabilityRow) (bid : String)
    (rows : List FetchRow) (currSet : List String) (now : Int) (runId : String) :
    List SlotAvailabilityRow :=
  if currSet.isEmpty then table
  else
    applyProjUpserts table
      ((currSet.filter (fun sid => (bySlot rows sid).isSome)).map
        (fun sid => buildSlotAvailabilityRow bid sid (bySlot rows sid) now runId))

/-- `added = curr_set - prev_set`. -/
def addedOf (prevSet currSet : List String) : List String :=
  currSet.filter (fun s => !(prevSet.contains s))

/-- Distinct non-null `venue_id`s of projection rows of this bucket whose
slot is in `prev_set` (skipped entirely when `prev_set` is empty). -/
def prevVenueIdsOf (proj : List SlotAvailabilityRow) (bid : String)
    (prevSet : List String) : List String :=
  if prevSet.isEmpty then []
  else
    ((proj.filter (fun t =>
        t.bucketId == bid && prevSet.contains t.slotId && t.venueId.isSome)).filterMap
      (fun t => t.venueId)).dedup

/-- `drops_venue_zero`: added slots whose venue string is not among the
venues observed under `prev_set`. -/
def dropsVenueZeroOf (rows : List FetchRow) (added prevVenueIds : List String) :
    List String :=
  added.filter (fun sid => !(prevVenueIds.contains (venueStrOf rows sid)))

/-- `recently_notified`: distinct slot ids of this bucket's drop events with
`opened_at >= cutoff`. -/
def recentlyNotifiedOf (events : List DropEventRow) (bid : String) (cutoff : Int) :
    List String :=
  ((events.filter (fun e => e.bucketId == bid && decide (cutoff ≤ e.openedAt))).map
    (fun e => e.slotId)).dedup

/-- A new `drop_events` row for an emitted drop. -/
def mkDropEventRow (bid sid : String) (r : Option FetchRow) (now : Int) : DropEventRow :=
  { bucketId := bid, slotId := sid, openedAt := now, venueId := r.bind FetchRow.venueId,
    dedupeKey := { keyBucket := bid, keySlot := sid, keyMinute := minuteFloor now },
    pushSentAt := none }

/-- Bulk `INSERT ... ON CONFLICT (dedupe_key) DO NOTHING`. -/
def insertDropEvents (table : List DropEventRow) (newRows : List DropEventRow) :
    List DropEventRow :=
  newRows.foldl
    (fun acc e => if acc.any (fun e0 => decide (e0.dedupeKey = e.dedupeKey)) then acc
      else acc ++ [e])
    table

/-- Key equality on the `(bucket_id, slot_id)` unique index of
`availability_state`. -/
def stateKeyMatch (bid sid : String) (s : AvailabilityStateRow) : Bool :=
  s.bucketId == bid && s.slotId == sid

/-- One `availability_state` upsert: on `(bucket_id, slot_id)` conflict reset
`opened_at`, clear `closed_at` and refresh the venue; otherwise insert a fresh
open row with a new autoincrement id. -/
def upsertStateRow (acc : List AvailabilityStateRow × Nat) (bid sid : String)
    (r : Option FetchRow) (now : Int) : List AvailabilityStateRow × Nat :=
  if acc.1.any (stateKeyMatch bid sid) then
    (acc.1.map (fun s =>
      if stateKeyMatch bid sid s then
        { s with openedAt := now, closedAt := none, venueId := r.bind FetchRow.venueId }
      else s), acc.2)
  else
    (acc.1 ++ [{ id := acc.2, bucketId := bid, slotId := sid, openedAt := now,
                 closedAt := none, durationSeconds := none,
                 venueId := r.bind FetchRow.venueId, aggregatedAt := none }],
     acc.2 + 1)

/-- The batched `availability_state` upserts for the given slot ids. -/
def applyStateUpserts (table : List AvailabilityStateRow) (nextId : Nat) (bid : String)
    (rows : List FetchRow) (now : Int) (sids : List String) :
    List AvailabilityStateRow × Nat :=
  sids.foldl (fun acc sid => upsertStateRow acc bid sid (bySlot rows sid) now)
    (table, nextId)

/-- The closure query: projection rows of this bucket with `state = open` whose
slot is not in `curr_set`. -/
def closedRowsOf (proj : List SlotAvailabilityRow) (bid : String)
    (currSet : List String) : List SlotAvailabilityRow :=
  proj.filter (fun t =>
    t.bucketId == bid && t.state == "open" && !(currSet.contains t.slotId))

/-- The closure bulk update: mark every row of the bucket whose slot is in
`closed_slot_ids` as closed at `now` under the poll's run id (no-op when the
set is empty, mirroring the `if closed_slot_ids:` guard). -/
def markClosed (proj : List SlotAvailabilityRow) (bid : String)
    (closedIds : List String) (now : Int) (runId : String) :
    List SlotAvailabilityRow :=
  if closedIds.isEmpty then proj
  else
    proj.map (fun t =>
      if t.bucketId == bid && closedIds.contains t.slotId then
        { t with state := "closed", closedAt := some now, lastSeenAt := some now,
                 runId := some runId, updatedAt := now }
      else t)

/-- One iteration of the per-closed-row loop: compute
`duration = now - opened_at` from the projection row, skip negative durations,
close the first open `availability_state` row of the `(bucket, slot)` and
stage a `ClosedEventData` for aggregation. -/
def closeSessionStep (bid : String) (now : Int)
    (acc : List AvailabilityStateRow × List ClosedEventData)
    (row : SlotAvailabilityRow) :
    List AvailabilityStateRow × List ClosedEventData :=
  let dur := now - row.openedAt
  if dur < 0 then acc
  else
    match acc.1.find? (fun s =>
        s.bucketId == bid && s.slotId == row.slotId && s.closedAt.isNone) with
    | none => acc
    | some st =>
        (acc.1.map (fun s =>
          if s.id == st.id then
            { s with closedAt := some now, durationSeconds := some dur }
          else s),
         acc.2 ++ [{ venueId := row.venueId, dropDurationSeconds := dur,
                     bucketId := bid, sessionId := st.id }])

/-- The per-closed-row loop over the closure query's rows. -/
def closeSessions (table : List AvailabilityStateRow) (bid : String) (now : Int)
    (closedRows : List SlotAvailabilityRow) :
    List AvailabilityStateRow × List ClosedEventData :=
  closedRows.foldl (closeSessionStep bid now) (table, [])

/-- `db.query(DiscoveryBucket).filter(bucket_id == bid).first()`. -/
def bucketFind (db : DB) (bid : String) : Option BucketRow :=
  db.buckets.find? (fun b => b.bucketId == bid)

/-- The bucket-row-missing branch of `run_poll_for_bucket`: insert the bucket
with `baseline = prev = sorted(curr_set)`, bootstrap the projection, return
zero emitted drops. -/
def pollBootstrapMissing (db : DB) (bid dateStr timeSlot : String)
    (rows : List FetchRow) (now : Int) (runId : String) : PollResult :=
  let currSet := currSetOf rows
  let newBucket : BucketRow :=
    { bucketId := bid, dateStr := dateStr, timeSlot := timeSlot,
      baselineSlotIds := some (sortStrings currSet),
      prevSlotIds := some (sortStrings currSet), scannedAt := some now }
  let proj1 := bootstrapSlotAvailability db.slotAvailability bid rows currSet now runId
  { db := { db with buckets := db.buckets ++ [newBucket], slotAvailability := proj1 },
    emitted := 0, currCount := currSet.length, toAggregate := [] }

/-- The `baseline_slot_ids is None` branch: initialize baseline and prev on
the existing bucket row, bootstrap the projection, return zero emitted drops. -/
def pollBootstrapNull (db : DB) (bid : String) (rows : List FetchRow) (now : Int)
    (runId : String) : PollResult :=
  let currSet := currSetOf rows
  let buckets2 := db.buckets.map (fun b =>
    if b.bucketId == bid then
      { b with baselineSlotIds := some (sortStrings currSet),
               prevSlotIds := some (sortStrings currSet), scannedAt := some now }
    else b)
  let proj1 := bootstrapSlotAvailability db.slotAvailability bid rows currSet now runId
  { db := { db with buckets := buckets2, slotAvailability := proj1 },
    emitted := 0, currCount := currSet.length, toAggregate := [] }

/-- `prev_set` of a normal poll: the stored previous snapshot, decoded. -/
def pollPrevSet (brow : BucketRow) : List String := parseSlotIds brow.prevSlotIds

/-- `added = curr_set - prev_set` (also called `drops` in the source). -/
def pollAdded (rows : List FetchRow) (brow : BucketRow) : List String :=
  addedOf (pollPrevSet brow) (currSetOf rows)

/-- `drops_venue_zero`: added slots whose venue had no slot under `prev_set`. -/
def pollDropsVenueZero (db : DB) (bid : String) (rows : List FetchRow)
    (brow : BucketRow) : List String :=
  dropsVenueZeroOf rows (pollAdded rows brow)
    (prevVenueIdsOf db.slotAvailability bid (pollPrevSet brow))

/-- `recently_notified` of this poll (cutoff `now - NOTIFIED_DEDUPE_MINUTES`). -/
def pollRecentlyNotified (cfg : PollConfig) (db : DB) (bid : String) (now : Int) :
    List String :=
  recentlyNotifiedOf db.dropEvents bid (now - cfg.dedupeMinutes * 60)

/-- `drops_to_emit = drops_venue_zero - recently_notified`. -/
def pollDropsToEmit (cfg : PollConfig) (db : DB) (bid : String)
    (rows : List FetchRow) (now : Int) (brow : BucketRow) : List String :=
  (pollDropsVenueZero db bid rows brow).filter
    (fun sid => !((pollRecentlyNotified cfg db bid now).contains sid))

/-- `slot_rows`: the projection rows written for every added slot. -/
def pollSlotRows (bid : String) (rows : List FetchRow) (now : Int) (runId : String)
    (brow : BucketRow) : List SlotAvailabilityRow :=
  (pollAdded rows brow).map (fun sid =>
    buildSlotAvailabilityRow bid sid (bySlot rows sid) now runId)

/-- The projection table after the added-slot bulk upserts. -/
def pollProj1 (db : DB) (bid : String) (rows : List FetchRow) (now : Int)
    (runId : String) (brow : BucketRow) : List SlotAvailabilityRow :=
  applyProjUpserts db.slotAvailability (pollSlotRows bid rows now runId brow)

/-- `drop_rows`: the drop events inserted for `drops_to_emit`. -/
def pollDropRows (cfg : PollConfig) (db : DB) (bid : String) (rows : List FetchRow)
    (now : Int) (brow : BucketRow) : List DropEventRow :=
  (pollDropsToEmit cfg db bid rows now brow).map
    (fun sid => mkDropEventRow bid sid (bySlot rows sid) now)

/-- The drop-event table after the batch insert. -/
def pollEvents1 (cfg : PollConfig) (db : DB) (bid : String) (rows : List FetchRow)
    (now : Int) (brow : BucketRow) : List DropEventRow :=
  insertDropEvents db.dropEvents (pollDropRows cfg db bid rows now brow)

/-- Added slots lacking an open `availability_state` row (`existing_slot_ids`
is queried once up front; `drops` is already duplicate-free). -/
def pollStateSids (db : DB) (bid : String) (rows : List FetchRow)
    (brow : BucketRow) : List String :=
  (pollAdded rows brow).filter (fun sid =>
    !(((db.availabilityState.filter (fun s =>
        s.bucketId == bid && s.closedAt.isNone)).map
      (fun s => s.slotId)).contains sid))

/-- The `availability_state` table and autoincrement cursor after the open
upserts. -/
def pollStateRes (db : DB) (bid : String) (rows : List FetchRow) (now : Int)
    (brow : BucketRow) : List AvailabilityStateRow × Nat :=
  applyStateUpserts db.availabilityState db.nextStateId bid rows now
    (pollStateSids db bid rows brow)

/-- The closure query's rows (run on the post-upsert projection). -/
def pollClosedRows (db : DB) (bid : String) (rows : List FetchRow) (now : Int)
    (runId : String) (brow : BucketRow) : List SlotAvailabilityRow :=
  closedRowsOf (pollProj1 db bid rows now runId brow) bid (currSetOf rows)

/-- `closed_slot_ids`. -/
def pollClosedIds (db : DB) (bid : String) (rows : List FetchRow) (now : Int)
    (runId : String) (brow : BucketRow) : List String :=
  ((pollClosedRows db bid rows now runId brow).map (fun r => r.slotId)).dedup

/-- The normal diff-and-apply branch of `run_poll_for_bucket` (steps 5-11 of
the poll): diff against the stored `prev_slot_ids`, filter drops by the
venue-had-zero criterion and the TTL dedupe, upsert the projection, insert
drop events, upsert availability state, apply the closure step, persist
`prev = sorted(curr_set)`, and prune pushed drop events of closed slots. -/
def pollNormal (cfg : PollConfig) (db : DB) (bid : String) (rows : List FetchRow)
    (now : Int) (runId : String) (brow : BucketRow) : PollResult :=
  let closedIds := pollClosedIds db bid rows now runId brow
  let proj2 := markClosed (pollProj1 db bid rows now runId brow) bid closedIds now
    runId
  let closeRes := closeSessions (pollStateRes db bid rows now brow).1 bid now
    (pollClosedRows db bid rows now runId brow)
  let buckets2 := db.buckets.map (fun b =>
    if b.bucketId == bid then
      { b with prevSlotIds := some (sortStrings (currSetOf rows)),
               scannedAt := some now }
    else b)
  let events2 :=
    if closedIds.isEmpty then pollEvents1 cfg db bid rows now brow
    else (pollEvents1 cfg db bid rows now brow).filter (fun e =>
      !(e.bucketId == bid && closedIds.contains e.slotId && e.pushSentAt.isSome))
  { db := { buckets := buckets2, slotAvailability := proj2, dropEvents := events2,
            availabilityState := closeRes.1, nextStateId :=
              (pollStateRes db bid rows now brow).2 },
    emitted := (pollDropRows cfg db bid rows now brow).length,
    currCount := (currSetOf rows).length, toAggregate := closeRes.2 }

/-- `run_poll_for_bucket` with the advisory lock acquired (the lock-contention
branch returns without writes and is not part of any claim proved here). -/
def runPollForBucket (cfg : PollConfig) (db : DB) (bid dateStr timeSlot : String)
    (rows : List FetchRow) (now : Int) (runId : String) : PollResult :=
  match bucketFind db bid with
  | none => pollBootstrapMissing db bid dateStr timeSlot rows now runId
  | some brow =>
      match brow.baselineSlotIds with
      | none => pollBootstrapNull db bid rows now runId
      | some _ => pollNormal cfg db bid rows now runId brow

/-- `fetch_for_bucket`: a provider exception (transport error, parse failure)
is caught and turned into an empty result list. -/
def fetchForBucket (providerResult : Except String (List FetchRow)) : List FetchRow :=
  match providerResult with
  | Except.error _ => []
  | Except.ok rows => rows

/-- The poll pipeline as the worker runs it: fetch (with transport errors
collapsed to an empty snapshot) followed by `run_poll_for_bucket`. -/
def runPollWithFetch (cfg : PollConfig) (db : DB) (bid dateStr timeSlot : String)
    (providerResult : Except String (List FetchRow)) (now : Int) (runId : String) :
    PollResult :=
  runPollForBucket cfg db bid dateStr timeSlot (fetchForBucket providerResult) now runId

/-- `run_baseline_for_bucket`: set `baseline = prev = sorted(slot_ids)` and
`scanned_at = now` on the bucket row (inserting it if missing) and return the
slot count.  No other table is touched. -/
def runBaselineForBucket (db : DB) (bid dateStr timeSlot : String)
    (rows : List FetchRow) (now : Int) : DB × Nat :=
  let slotIds := rows.map (fun r => r.slotId)
  let js := sortStrings slotIds
  match bucketFind db bid with
  | some _ =>
      ({ db with buckets := db.buckets.map (fun b =>
          if b.bucketId == bid then
            { b with baselineSlotIds := some js, prevSlotIds := some js,
                     scannedAt := some now }
          else b) },
       slotIds.length)
  | none =>
      ({ db with buckets := db.buckets ++
          [{ bucketId := bid, dateStr := dateStr, timeSlot := timeSlot,
             baselineSlotIds := some js, prevSlotIds := some js,
             scannedAt := some now }] },
       slotIds.length)

/-- `prune_old_slot_availability`: delete projection rows with
`bucket_id < today_str + "_15:00"` (the cutoff anchor is the hard-coded
literal `"15:00"`, independent of the configured `TIME_SLOTS`). -/
def pruneOldSlotAvailability (db : DB) (todayStr : String) : DB :=
  { db with slotAvailability := db.slotAvailability.filter (fun r =>
      !(strLt r.bucketId (todayStr ++ "_15:00"))) }

/-- `prune_old_drop_events`: pass (1) deletes rows with
`bucket_id < today_str + "_15:00"` (again the hard-coded anchor); pass (2)
deletes rows with `opened_at < now - retention_days` whose `push_sent_at` is
set. -/
def pruneOldDropEvents (db : DB) (todayStr : String) (now : Int)
    (retentionDays : Int) : DB :=
  let cutoffBucket := todayStr ++ "_15:00"
  let afterBucketPass := db.dropEvents.filter (fun e =>
    !(strLt e.bucketId cutoffBucket))
  let cutoffTime := now - retentionDays * 86400
  { db with dropEvents := afterBucketPass.filter (fun e =>
      !(decide (e.openedAt < cutoffTime) && e.pushSentAt.isSome)) }

/-- The prune cutoff as the specification words it: window start joined to
the first configured anchor time slot.  Modelled from the spec for comparison
with the implementation's hard-coded cutoff. -/
def specPruneCutoff (todayStr : String) (timeSlots : List String) : String :=
  todayStr ++ "_" ++ timeSlots.headD ""

/-- One entry of the scheduler's `_bucket_next_run` map; `none` models the
`datetime.min` sentinel given to never-run buckets (immediately ready). -/
structure SchedEntry where
  bucketId : String
  nextRunAfter : Option Int
deriving DecidableEq, Repr

/-- The process-local scheduler state (`_bucket_next_run`, `_in_flight`). -/
structure SchedState where
  nextRun : List SchedEntry
  inFlight : List String
deriving DecidableEq, Repr

/-- `_bucket_next_run.get(bid, min_dt) <= now`. -/
def entryReady (nextRun : List SchedEntry) (b : String) (now : Int) : Bool :=
  match nextRun.find? (fun e => e.bucketId == b) with
  | none => true
  | some e =>
      match e.nextRunAfter with
      | none => true
      | some t => decide (t ≤ now)

/-- The `ready` list of one tick: window buckets not in flight whose
next-run time has passed, in window order. -/
def readyBuckets (inFlight : List String) (nextRun : List SchedEntry)
    (windowBuckets : List String) (now : Int) : List String :=
  windowBuckets.filter (fun b => !(inFlight.contains b) && entryReady nextRun b now)

/-- Window maintenance on `_bucket_next_run`: drop entries for buckets no
longer in the window, enter new buckets as immediately ready. -/
def refreshNextRun (nextRun : List SchedEntry) (windowBuckets : List String) :
    List SchedEntry :=
  let nr1 := nextRun.filter (fun e => windowBuckets.contains e.bucketId)
  windowBuckets.foldl (fun acc b =>
    if acc.any (fun e => e.bucketId == b) then acc
    else acc ++ [{ bucketId := b, nextRunAfter := none }]) nr1

/-- The dispatch portion of `run_discovery_bucket_job` (one tick): refresh the
next-run map for the window, compute `ready`, take its first
`MAX_CONCURRENT_BUCKETS` members, mark them in flight and return them as the
dispatched list. -/
def tickDispatch (maxConcurrent : Nat) (st : SchedState)
    (windowBuckets : List String) (now : Int) : SchedState × List String :=
  let nr2 := refreshNextRun st.nextRun windowBuckets
  let ready := readyBuckets st.inFlight nr2 windowBuckets now
  let toRun := ready.take maxConcurrent
  ({ nextRun := nr2, inFlight := st.inFlight ++ toRun }, toRun)

/-- One poll of a sequence fed to a single bucket: the fetched snapshot, the
poll's wall-clock time and its run id. -/
structure PollInput where
  rows : List FetchRow
  time : Int
  runId : String
deriving Repr

/-- Feed a sequence of snapshots to one bucket through successive polls. -/
def runPollSeq (cfg : PollConfig) (bid dateStr timeSlot : String) (db : DB)
    (polls : List PollInput) : DB :=
  polls.foldl (fun d p =>
    (runPollForBucket cfg d bid dateStr timeSlot p.rows p.time p.runId).db) db

/-- Modelled from the spec: the venue criterion of one poll, `Cᵢ − Cᵢ₋₁`
minus the members whose venue appeared in `Cᵢ₋₁`. -/
def specVenueFilter (venueOf : String → String) (prevC currC : List String) :
    List String :=
  (currC.filter (fun s => !(prevC.contains s))).filter (fun s =>
    !((prevC.map venueOf).contains (venueOf s)))

/-- Modelled from the spec: the TTL dedupe of one poll, removing candidates
having an already-emitted drop `(s, t)` with `t ≥ now − T` (T in seconds). -/
def specTTLFilter (T : Int) (now : Int) (hist : List (String × Int))
    (cands : List String) : List String :=
  cands.filter (fun s =>
    !(hist.any (fun p => p.1 == s && decide (now - T ≤ p.2))))

/-- Modelled from the spec: accumulate the emitted drops of the polls after
the first, as `(slot_id, opened_at)` pairs. -/
def specEmissionsFrom (T : Int) (venueOf : String → String) :
    List String → List (String × Int) → List (List String × Int) →
    List (String × Int)
  | _, hist, [] => hist
  | prevC, hist, (c, tm) :: rest =>
      let emit := specTTLFilter T tm hist (specVenueFilter venueOf prevC c)
      specEmissionsFrom T venueOf c (hist ++ emit.map (fun s => (s, tm))) rest

/-- Modelled from the spec: the whole sequence's emitted-drop multiset,
`⋃ᵢ≥₂ (Cᵢ − Cᵢ₋₁)` minus the venue-repeat members and the TTL-deduped
members (the first poll is the bootstrap and emits nothing). -/
def specSeqEmissions (T : Int) (venueOf : String → String)
    (polls : List PollInput) : List (String × Int) :=
  match polls with
  | [] => []
  | p0 :: rest =>
      specEmissionsFrom T venueOf (currSetOf p0.rows) []
        (rest.map (fun p => (currSetOf p.rows, p.time)))

/-- Uniqueness of the `(bucket_id, slot_id)` primary key across the
projection table (database invariant backing the unique index). -/
def projKeysUnique (table : List SlotAvailabilityRow) : Prop :=
  List.Pairwise (fun a b => ¬(a.bucketId = b.bucketId ∧ a.slotId = b.slotId)) table

/-- Uniqueness of the `(bucket_id, slot_id)` key of `availability_state`. -/
def stateKeysUnique (table : List AvailabilityStateRow) : Prop :=
  List.Pairwise (fun a b => ¬(a.bucketId = b.bucketId ∧ a.slotId = b.slotId)) table

/-- Distinctness of `availability_state.id` values (autoincrement column). -/
def stateIdsUnique (table : List AvailabilityStateRow) : Prop :=
  List.Pairwise (fun a b => a.id ≠ b.id) table

/-- Ids in the table are below the autoincrement cursor. -/
def stateIdsBelow (table : List AvailabilityStateRow) (n : Nat) : Prop :=
  ∀ s ∈ table, s.id < n

/-- The claim C4 window property: for any `(bucket, slot)` and any half-open
window of length `T` seconds, at most one drop event opened inside it. -/
def dropWindowBounded (T : Int) (evts : List DropEventRow) : Prop :=
  ∀ b s : String, ∀ t0 : Int,
    (evts.filter (fun e => e.bucketId == b && e.slotId == s &&
      decide (t0 ≤ e.openedAt) && decide (e.openedAt < t0 + T))).length ≤ 1

/-- Invariant carried across the polls of a single-bucket sequence: the store
holds exactly one bucket row (baseline set, `prev = sorted(prevC)`), every
projection row belongs to the bucket and records the venue of its slot, every
member of `prevC` has a projection row, and the drop-event table reads back
exactly as the emission history `hist` (all events of this bucket, un-pushed,
with the canonical dedupe key). -/
def seqInv (bid : String) (venueOf : String → String) (db : DB)
    (prevC : List String) (hist : List (String × Int)) : Prop :=
  (∃ brow, db.buckets = [brow] ∧ brow.bucketId = bid ∧
    (∃ bl, brow.baselineSlotIds = some bl) ∧
    brow.prevSlotIds = some (sortStrings prevC)) ∧
  prevC.Nodup ∧ (∀ s ∈ prevC, ¬s = "") ∧
  (∀ row ∈ db.slotAvailability,
    row.bucketId = bid ∧ row.venueId = some (venueOf row.slotId)) ∧
  (∀ s ∈ prevC, ∃ row ∈ db.slotAvailability, row.slotId = s) ∧
  db.dropEvents.map (fun e => (e.slotId, e.openedAt)) = hist ∧
  (∀ e ∈ db.dropEvents, e.bucketId = bid ∧ e.pushSentAt = none ∧
    e.dedupeKey = ⟨bid, e.slotId, minuteFloor e.openedAt⟩)

theorem mem_insertSorted (s x : String) (l : List String) :
    s ∈ insertSorted x l ↔ s = x ∨ s ∈ l := by
  induction l with
  | nil => simp [insertSorted]
  | cons y ys ih =>
      simp only [insertSorted]
      by_cases h : strLe x y = true
      · simp [h]
      · simp only [h]
        simp [ih]
        tauto

theorem mem_sortStrings (s : String) (l : List String) :
    s ∈ sortStrings l ↔ s ∈ l := by
  induction l with
  | nil => simp [sortStrings]
  | cons y ys ih =>
      simp only [sortStrings, List.foldr] at *
      rw [mem_insertSorted]
      simp [ih]

/-- C9: `run_baseline_for_bucket` writes only the `discovery_buckets` row,
setting `baseline_slot_ids`, `prev_slot_ids` and `scanned_at` to the fresh
snapshot; the projection, drop-event and availability-state tables are
untouched, and every bucket row other than the target is left as it was. -/
theorem runBaselineForBucket_frame (db : DB) (bid dateStr timeSlot : String)
    (rows : List FetchRow) (now : Int) :
    (runBaselineForBucket db bid dateStr timeSlot rows now).1.slotAvailability =
      db.slotAvailability ∧
    (runBaselineForBucket db bid dateStr timeSlot rows now).1.dropEvents =
      db.dropEvents ∧
    (runBaselineForBucket db bid dateStr timeSlot rows now).1.availabilityState =
      db.availabilityState ∧
    (runBaselineForBucket db bid dateStr timeSlot rows now).1.nextStateId =
      db.nextStateId ∧
    (∀ b ∈ (runBaselineForBucket db bid dateStr timeSlot rows now).1.buckets,
      b.bucketId = bid →
        b.baselineSlotIds = some (sortStrings (rows.map (fun r => r.slotId))) ∧
        b.prevSlotIds = some (sortStrings (rows.map (fun r => r.slotId))) ∧
        b.scannedAt = some now) ∧
    (∀ b ∈ (runBaselineForBucket db bid dateStr timeSlot rows now).1.buckets,
      b.bucketId ≠ bid → b ∈ db.buckets) := by
  unfold runBaselineForBucket
  cases hfind : bucketFind db bid with
  | some brow =>
      refine ⟨rfl, rfl, rfl, rfl, ?_, ?_⟩
      · intro b hb hbid
        simp only [List.mem_map] at hb
        obtain ⟨a, _, ha⟩ := hb
        by_cases hab : a.bucketId == bid
        · simp [hab] at ha
          subst ha
          exact ⟨rfl, rfl, rfl⟩
        · simp [hab] at ha
          subst ha
          simp at hab
          exact absurd hbid hab
      · intro b hb hbid
        simp only [List.mem_map] at hb
        obtain ⟨a, ha, hab⟩ := hb
        by_cases h : a.bucketId == bid
        · simp [h] at hab
          subst hab
          exact absurd (by simpa using h) hbid
        · simp [h] at hab
          subst hab
          exact ha
  | none =>
      refine ⟨rfl, rfl, rfl, rfl, ?_, ?_⟩
      · intro b hb hbid
        simp only [List.mem_append, List.mem_singleton] at hb
        cases hb with
        | inl h =>
            exfalso
            have : db.buckets.find? (fun x => x.bucketId == bid) = none := hfind
            rw [List.find?_eq_none] at this
            have hfalse := this b h
            simp [hbid] at hfalse
        | inr h => subst h; exact ⟨rfl, rfl, rfl⟩
      · intro b hb hbid
        simp only [List.mem_append, List.mem_singleton] at hb
        cases hb with
        | inl h => exact h
        | inr h => subst h; simp at hbid

/-- Witness for `runBaselineForBucket_frame` at a concrete store. -/
theorem runBaselineForBucket_frame_witness :
    (runBaselineForBucket DB.empty "b1" "2026-02-12" "15:00"
      [{ slotId := "s2", venueId := none }, { slotId := "s1", venueId := none }]
      50).1.dropEvents = DB.empty.dropEvents ∧
    ({ bucketId := "b1", dateStr := "2026-02-12", timeSlot := "15:00",
       baselineSlotIds := some ["s1", "s2"], prevSlotIds := some ["s1", "s2"],
       scannedAt := some 50 } : BucketRow) ∈
      (runBaselineForBucket DB.empty "b1" "2026-02-12" "15:00"
        [{ slotId := "s2", venueId := none }, { slotId := "s1", venueId := none }]
        50).1.buckets ∧
    ({ bucketId := "b1", dateStr := "2026-02-12", timeSlot := "15:00",
       baselineSlotIds := some ["s1", "s2"], prevSlotIds := some ["s1", "s2"],
       scannedAt := some 50 } : BucketRow).baselineSlotIds =
      some (sortStrings
        (([{ slotId := "s2", venueId := none },
           { slotId := "s1", venueId := none }] : List FetchRow).map
          (fun r => r.slotId))) :=
  ⟨(runBaselineForBucket_frame DB.empty "b1" "2026-02-12" "15:00"
      [{ slotId := "s2", venueId := none }, { slotId := "s1", venueId := none }]
      50).2.1,
   by decide,
   ((runBaselineForBucket_frame DB.empty "b1" "2026-02-12" "15:00"
      [{ slotId := "s2", venueId := none }, { slotId := "s1", venueId := none }]
      50).2.2.2.2.1
      { bucketId := "b1", dateStr := "2026-02-12", timeSlot := "15:00",
        baselineSlotIds := some ["s1", "s2"], prevSlotIds := some ["s1", "s2"],
        scannedAt := some 50 }
      (by decide) (by decide)).1⟩

/-- C8 counterexample: with `TIME_SLOTS = ["20:30"]` the first configured
anchor is `"20:30"`, and a projection row of bucket `2026-02-12_18:00` is
lexicographically below `window_start + "_" + first_anchor`, yet the prune
(whose cutoff is the hard-coded `"_15:00"`) keeps it. -/
theorem pruneSlotAvailability_ignores_configured_anchor :
    strLt "2026-02-12_18:00" (specPruneCutoff "2026-02-12" ["20:30"]) = true ∧
    (⟨"2026-02-12_18:00", "s", "open", 0, none, none, none, none, 0⟩ :
        SlotAvailabilityRow) ∈
      (pruneOldSlotAvailability
        ⟨[], [⟨"2026-02-12_18:00", "s", "open", 0, none, none, none, none, 0⟩],
         [], [], 0⟩
        "2026-02-12").slotAvailability := by
  exact ⟨by decide, by decide⟩

/-- C8 amended: the retention prune deletes exactly the projection rows, and
in its bucket-prefix pass exactly the drop-event rows, whose `bucket_id` is
lexicographically below `window_start + "_15:00"` — the anchor in the cutoff
is the fixed literal `"15:00"`, not the first configured `TIME_SLOTS` entry
(the two coincide under the default configuration); the drop-event time pass
additionally deletes pushed rows older than the retention horizon. -/
theorem pruneRetention_hardcoded_cutoff (db : DB) (todayStr : String)
    (now retentionDays : Int) :
    (∀ r ∈ db.slotAvailability,
      (r ∈ (pruneOldSlotAvailability db todayStr).slotAvailability ↔
        strLt r.bucketId (todayStr ++ "_15:00") = false)) ∧
    (∀ r ∈ (pruneOldSlotAvailability db todayStr).slotAvailability,
      r ∈ db.slotAvailability) ∧
    (∀ e ∈ db.dropEvents,
      (e ∈ (pruneOldDropEvents db todayStr now retentionDays).dropEvents ↔
        (strLt e.bucketId (todayStr ++ "_15:00") = false ∧
          (¬ e.openedAt < now - retentionDays * 86400 ∨ e.pushSentAt = none)))) ∧
    (∀ e ∈ (pruneOldDropEvents db todayStr now retentionDays).dropEvents,
      e ∈ db.dropEvents) := by
  refine ⟨?_, ?_, ?_, ?_⟩
  · intro r hr
    simp [pruneOldSlotAvailability, List.mem_filter, hr]
  · intro r hr
    simp only [pruneOldSlotAvailability, List.mem_filter] at hr
    exact hr.1
  · intro e he
    have hopt : e.pushSentAt.isSome = false ↔ e.pushSentAt = none := by
      cases h : e.pushSentAt <;> simp
    simp only [pruneOldDropEvents, List.mem_filter, he, true_and, Bool.not_eq_true',
      Bool.and_eq_false_iff, decide_eq_false_iff_not, and_true, hopt]
  · intro e he
    simp only [pruneOldDropEvents, List.mem_filter] at he
    exact he.1.1

/-- Witness for `pruneRetention_hardcoded_cutoff` at a concrete store. -/
theorem pruneRetention_hardcoded_cutoff_witness :
    ((⟨"2026-02-13_20:30", "s", "open", 0, none, none, none, none, 0⟩ :
        SlotAvailabilityRow) ∈
      (⟨[], [⟨"2026-02-13_20:30", "s", "open", 0, none, none, none, none, 0⟩],
        [], [], 0⟩ : DB).slotAvailability) ∧
    ((⟨"2026-02-13_20:30", "s", "open", 0, none, none, none, none, 0⟩ :
        SlotAvailabilityRow) ∈
      (pruneOldSlotAvailability
        ⟨[], [⟨"2026-02-13_20:30", "s", "open", 0, none, none, none, none, 0⟩],
         [], [], 0⟩
        "2026-02-12").slotAvailability ↔
      strLt "2026-02-13_20:30" ("2026-02-12" ++ "_15:00") = false) :=
  ⟨by decide,
   (pruneRetention_hardcoded_cutoff
      ⟨[], [⟨"2026-02-13_20:30", "s", "open", 0, none, none, none, none, 0⟩],
       [], [], 0⟩
      "2026-02-12" 0 7).1
     ⟨"2026-02-13_20:30", "s", "open", 0, none, none, none, none, 0⟩
     (by decide)⟩

/-- C7 counterexample: with `N = 2`, one bucket already in flight and two
ready buckets, the tick dispatches `ready[:N] = 2` buckets — the claim's
`min(|ready|, N − |in_flight|) = 1` — and the in-flight set grows to 3 > N. -/
theorem tickDispatch_exceeds_bound :
    (tickDispatch 2 ⟨[], ["a"]⟩ ["a", "b", "c"] 0).2 = ["b", "c"] ∧
    (readyBuckets ["a"] (refreshNextRun [] ["a", "b", "c"]) ["a", "b", "c"]
        0).take (2 - (["a"] : List String).length) = ["b"] ∧
    (tickDispatch 2 ⟨[], ["a"]⟩ ["a", "b", "c"] 0).1.inFlight.length = 3 := by
  exact ⟨by decide, by decide, by decide⟩

/-- C7 amended: each tick dispatches exactly the first
`min(|ready|, N)` members of `ready` (not `min(|ready|, N − |in_flight|)`),
marks them in flight, and therefore bounds the in-flight set by
`|in_flight before| + N`; the claimed bound `N` holds whenever no bucket was
in flight at the start of the tick. -/
theorem tickDispatch_take_max (maxConcurrent : Nat) (st : SchedState)
    (windowBuckets : List String) (now : Int) :
    (tickDispatch maxConcurrent st windowBuckets now).2 =
      (readyBuckets st.inFlight (refreshNextRun st.nextRun windowBuckets)
        windowBuckets now).take maxConcurrent ∧
    (tickDispatch maxConcurrent st windowBuckets now).1.inFlight =
      st.inFlight ++ (tickDispatch maxConcurrent st windowBuckets now).2 ∧
    (tickDispatch maxConcurrent st windowBuckets now).1.inFlight.length ≤
      st.inFlight.length + maxConcurrent ∧
    (st.inFlight = [] →
      (tickDispatch maxConcurrent st windowBuckets now).1.inFlight.length ≤
        maxConcurrent) := by
  refine ⟨rfl, rfl, ?_, ?_⟩
  · simp only [tickDispatch, List.length_append]
    exact Nat.add_le_add_left (List.length_take_le maxConcurrent _) _
  · intro h
    simp only [tickDispatch, h, List.nil_append, List.length_take]
    exact Nat.le_trans (Nat.min_le_left _ _) (Nat.le_refl _)

/-- Witness for `tickDispatch_take_max` on a concrete tick. -/
theorem tickDispatch_take_max_witness :
    (tickDispatch 2 ⟨[], []⟩ ["a", "b", "c"] 0).2 =
      (readyBuckets [] (refreshNextRun [] ["a", "b", "c"]) ["a", "b", "c"]
        0).take 2 ∧
    (([] : List String) = [] →
      (tickDispatch 2 ⟨[], []⟩ ["a", "b", "c"] 0).1.inFlight.length ≤ 2) :=
  ⟨(tickDispatch_take_max 2 ⟨[], []⟩ ["a", "b", "c"] 0).1,
   fun h => (tickDispatch_take_max 2 ⟨[], []⟩ ["a", "b", "c"] 0).2.2.2 h⟩

/-- C2: a provider transport error is swallowed by `fetch_for_bucket` (empty
list), and `run_poll_for_bucket` then proceeds to load, diff and close: on a
bucket whose previous observation had the open slot `sA`, a poll whose
provider call fails closes the slot's projection row and availability-state
row as if the empty set were a true observation — the worker does not abort,
contradicting the specification's "MUST abort before step 4" mitigation. -/
theorem providerError_applies_closures :
    (runPollWithFetch ⟨30⟩
      ⟨[⟨"2026-02-14_20:30", "2026-02-14", "20:30", some ["sA"], some ["sA"],
         some 0⟩],
       [⟨"2026-02-14_20:30", "sA", "open", 0, none, some 0, some "vA", some "r0",
         0⟩],
       [],
       [⟨0, "2026-02-14_20:30", "sA", 0, none, none, some "vA", none⟩],
       1⟩
      "2026-02-14_20:30" "2026-02-14" "20:30" (Except.error "http timeout")
      600 "r1").db.slotAvailability =
      [⟨"2026-02-14_20:30", "sA", "closed", 0, some 600, some 600, some "vA",
        some "r1", 600⟩] ∧
    (runPollWithFetch ⟨30⟩
      ⟨[⟨"2026-02-14_20:30", "2026-02-14", "20:30", some ["sA"], some ["sA"],
         some 0⟩],
       [⟨"2026-02-14_20:30", "sA", "open", 0, none, some 0, some "vA", some "r0",
         0⟩],
       [],
       [⟨0, "2026-02-14_20:30", "sA", 0, none, none, some "vA", none⟩],
       1⟩
      "2026-02-14_20:30" "2026-02-14" "20:30" (Except.error "http timeout")
      600 "r1").db.availabilityState =
      [⟨0, "2026-02-14_20:30", "sA", 0, some 600, some 600, some "vA", none⟩] := by
  exact ⟨by decide, by decide⟩

theorem insertDropEvents_cons (table : List DropEventRow) (e : DropEventRow)
    (rest : List DropEventRow) :
    insertDropEvents table (e :: rest) =
      insertDropEvents
        (if table.any (fun e0 => decide (e0.dedupeKey = e.dedupeKey)) then table
         else table ++ [e]) rest := rfl

theorem insertDropEvents_decompose (newRows : List DropEventRow) :
    ∀ table, ∃ kept, insertDropEvents table newRows = table ++ kept ∧
      kept.Sublist newRows := by
  induction newRows with
  | nil =>
      intro table
      exact ⟨[], by simp [insertDropEvents], List.Sublist.refl _⟩
  | cons e rest ih =>
      intro table
      by_cases h : table.any (fun e0 => decide (e0.dedupeKey = e.dedupeKey))
      · obtain ⟨kept, hk, hs⟩ := ih table
        refine ⟨kept, ?_, hs.cons e⟩
        rw [insertDropEvents_cons, if_pos h]
        exact hk
      · obtain ⟨kept, hk, hs⟩ := ih (table ++ [e])
        refine ⟨e :: kept, ?_, hs.cons₂ e⟩
        rw [insertDropEvents_cons, if_neg h, hk, List.append_assoc]
        rfl

theorem contains_iff_mem (l : List String) (s : String) :
    l.contains s = true ↔ s ∈ l := by
  simp [List.contains_iff_exists_mem_beq, beq_iff_eq]

theorem mem_pollAdded (rows : List FetchRow) (brow : BucketRow) (sid : String) :
    sid ∈ pollAdded rows brow ↔
      sid ∈ currSetOf rows ∧ sid ∉ pollPrevSet brow := by
  simp [pollAdded, addedOf, List.mem_filter, contains_iff_mem]

theorem pollDropsToEmit_subset_added (cfg : PollConfig) (db : DB) (bid : String)
    (rows : List FetchRow) (now : Int) (brow : BucketRow) (sid : String) :
    sid ∈ pollDropsToEmit cfg db bid rows now brow → sid ∈ pollAdded rows brow := by
  intro h
  simp only [pollDropsToEmit, List.mem_filter] at h
  have h2 := h.1
  simp only [pollDropsVenueZero, dropsVenueZeroOf, List.mem_filter] at h2
  exact h2.1

theorem pollNormal_new_event_mem (cfg : PollConfig) (db : DB) (bid : String)
    (rows : List FetchRow) (now : Int) (runId : String) (brow : BucketRow) :
    ∀ e ∈ (pollNormal cfg db bid rows now runId brow).db.dropEvents,
      e ∉ db.dropEvents → e ∈ pollDropRows cfg db bid rows now brow := by
  intro e he hnew
  have hev1 : e ∈ pollEvents1 cfg db bid rows now brow := by
    simp only [pollNormal] at he
    by_cases hc : (pollClosedIds db bid rows now runId brow).isEmpty
    · simpa [hc] using he
    · rw [if_neg hc] at he
      exact (List.mem_filter.mp he).1
  obtain ⟨kept, hk, hs⟩ :=
    insertDropEvents_decompose (pollDropRows cfg db bid rows now brow) db.dropEvents
  rw [pollEvents1, hk] at hev1
  rcases List.mem_append.mp hev1 with h | h
  · exact absurd h hnew
  · exact hs.subset h

theorem pollDrops_bootstrap_and_added (cfg : PollConfig) (db : DB)
    (bid dateStr timeSlot : String) (rows : List FetchRow) (now : Int)
    (runId : String) :
    ((bucketFind db bid = none ∨
        (∃ brow, bucketFind db bid = some brow ∧ brow.baselineSlotIds = none)) →
      ((runPollForBucket cfg db bid dateStr timeSlot rows now runId).db.dropEvents =
          db.dropEvents ∧
        (runPollForBucket cfg db bid dateStr timeSlot rows now runId).emitted = 0)) ∧
    (∀ brow, bucketFind db bid = some brow → brow.baselineSlotIds ≠ none →
      ∀ e ∈ (runPollForBucket cfg db bid dateStr timeSlot rows now runId).db.dropEvents,
        e ∉ db.dropEvents →
          e.slotId ∈ currSetOf rows ∧ e.slotId ∉ parseSlotIds brow.prevSlotIds) := by
  constructor
  · intro hcase
    cases hfind : bucketFind db bid with
    | none => simp [runPollForBucket, hfind, pollBootstrapMissing]
    | some brow =>
        rcases hcase with h | ⟨brow2, hfind2, hb⟩
        · rw [hfind] at h; cases h
        · rw [hfind] at hfind2
          injection hfind2 with heq
          subst heq
          simp [runPollForBucket, hfind, hb, pollBootstrapNull]
  · intro brow hfind hbase e he hnew
    cases hb : brow.baselineSlotIds with
    | none => exact absurd hb hbase
    | some bl =>
        simp only [runPollForBucket, hfind, hb] at he
        have hdr := pollNormal_new_event_mem cfg db bid rows now runId brow e he hnew
        simp only [pollDropRows, List.mem_map] at hdr
        obtain ⟨sid, hsid, rfl⟩ := hdr
        have hadd := pollDropsToEmit_subset_added cfg db bid rows now brow sid hsid
        rw [mem_pollAdded] at hadd
        exact ⟨hadd.1, hadd.2⟩

/-- Witness for `pollDrops_bootstrap_and_added`: a bootstrap poll on the
empty store inserts no drop events, and a normal poll's freshly inserted
event has its slot in `curr − prev`. -/
theorem pollDrops_bootstrap_and_added_witness :
    (bucketFind DB.empty "b1" = none ∧
      (runPollForBucket ⟨30⟩ DB.empty "b1" "2026-02-14" "20:30"
        [⟨"sA", some "vA"⟩] 100 "r1").db.dropEvents = DB.empty.dropEvents ∧
      (runPollForBucket ⟨30⟩ DB.empty "b1" "2026-02-14" "20:30"
        [⟨"sA", some "vA"⟩] 100 "r1").emitted = 0) ∧
    ((mkDropEventRow "b1" "sB" (bySlot [⟨"sB", some "vB"⟩] "sB") 100).slotId ∈
        currSetOf [⟨"sB", some "vB"⟩] ∧
      (mkDropEventRow "b1" "sB" (bySlot [⟨"sB", some "vB"⟩] "sB") 100).slotId ∉
        parseSlotIds (some ([] : List String))) :=
  ⟨⟨by decide,
    ((pollDrops_bootstrap_and_added ⟨30⟩ DB.empty "b1" "2026-02-14" "20:30"
      [⟨"sA", some "vA"⟩] 100 "r1").1 (Or.inl (by decide))).1,
    ((pollDrops_bootstrap_and_added ⟨30⟩ DB.empty "b1" "2026-02-14" "20:30"
      [⟨"sA", some "vA"⟩] 100 "r1").1 (Or.inl (by decide))).2⟩,
   (pollDrops_bootstrap_and_added ⟨30⟩
      ⟨[⟨"b1", "2026-02-14", "20:30", some [], some [], some 0⟩], [], [], [], 0⟩
      "b1" "2026-02-14" "20:30" [⟨"sB", some "vB"⟩] 100 "r1").2
     ⟨"b1", "2026-02-14", "20:30", some [], some [], some 0⟩
     (by decide) (by decide)
     (mkDropEventRow "b1" "sB" (bySlot [⟨"sB", some "vB"⟩] "sB") 100)
     (by decide) (by decide)⟩

theorem projKeyMatch_build (bid sid : String) (r : Option FetchRow) (now : Int)
    (runId : String) :
    projKeyMatch bid sid (buildSlotAvailabilityRow bid sid r now runId) = true := by
  simp [projKeyMatch, buildSlotAvailabilityRow]

theorem projKeyMatch_self (new : SlotAvailabilityRow) :
    projKeyMatch new.bucketId new.slotId new = true := by
  simp [projKeyMatch]

theorem projKeyMatch_eq_true_iff (b s : String) (t : SlotAvailabilityRow) :
    projKeyMatch b s t = true ↔ (t.bucketId = b ∧ t.slotId = s) := by
  simp [projKeyMatch]

theorem find_map_upsert (new : SlotAvailabilityRow) (table : List SlotAvailabilityRow)
    (r : SlotAvailabilityRow)
    (hfind : table.find? (projKeyMatch new.bucketId new.slotId) = some r) :
    (table.map (fun t =>
      if projKeyMatch new.bucketId new.slotId t then
        (if t.updatedAt < new.updatedAt then new else t)
      else t)).find? (projKeyMatch new.bucketId new.slotId) =
      some (if r.updatedAt < new.updatedAt then new else r) := by
  induction table with
  | nil => simp at hfind
  | cons t ts ih =>
      by_cases h : projKeyMatch new.bucketId new.slotId t = true
      · rw [List.find?_cons_of_pos _ h] at hfind
        injection hfind with hr
        subst hr
        simp only [List.map_cons, if_pos h]
        by_cases hu : t.updatedAt < new.updatedAt
        · rw [if_pos hu, List.find?_cons_of_pos _ (projKeyMatch_self new)]
        · rw [if_neg hu, List.find?_cons_of_pos _ h]
      · rw [List.find?_cons_of_neg _ h] at hfind
        simp only [List.map_cons, if_neg h]
        rw [List.find?_cons_of_neg _ h]
        exact ih hfind

theorem upsertProjRow_find_self (table : List SlotAvailabilityRow)
    (new : SlotAvailabilityRow) (r : SlotAvailabilityRow)
    (hfind : table.find? (projKeyMatch new.bucketId new.slotId) = some r) :
    (upsertProjRow table new).find? (projKeyMatch new.bucketId new.slotId) =
      some (if r.updatedAt < new.updatedAt then new else r) := by
  have hany : table.any (projKeyMatch new.bucketId new.slotId) = true :=
    List.any_eq_true.mpr
      ⟨r, List.mem_of_find?_eq_some hfind, List.find?_some hfind⟩
  rw [upsertProjRow, if_pos hany]
  exact find_map_upsert new table r hfind

theorem upsertProjRow_find_none (table : List SlotAvailabilityRow)
    (new : SlotAvailabilityRow)
    (hfind : table.find? (projKeyMatch new.bucketId new.slotId) = none) :
    (upsertProjRow table new).find? (projKeyMatch new.bucketId new.slotId) =
      some new := by
  have hany : table.any (projKeyMatch new.bucketId new.slotId) = false := by
    rw [List.find?_eq_none] at hfind
    simp only [List.any_eq_false]
    intro x hx
    exact fun hc => hfind x hx hc
  rw [upsertProjRow]
  rw [hany]
  simp only [Bool.false_eq_true, if_false]
  rw [List.find?_append, hfind]
  simp [projKeyMatch_self]

theorem find?_map_invariant {α : Type} (f : α → α) (p : α → Bool) (l : List α)
    (hp : ∀ t ∈ l, p (f t) = p t) (hfix : ∀ t ∈ l, p t = true → f t = t) :
    (l.map f).find? p = l.find? p := by
  induction l with
  | nil => simp
  | cons t ts ih =>
      by_cases h : p t = true
      · simp only [List.map_cons]
        rw [List.find?_cons_of_pos _ (by rw [hp t (List.mem_cons_self t ts)]; exact h),
          List.find?_cons_of_pos _ h, hfix t (List.mem_cons_self t ts) h]
      · simp only [List.map_cons]
        rw [List.find?_cons_of_neg _
            (by rw [hp t (List.mem_cons_self t ts)]; exact h),
          List.find?_cons_of_neg _ h]
        exact ih (fun x hx => hp x (List.mem_cons_of_mem t hx))
          (fun x hx => hfix x (List.mem_cons_of_mem t hx))

theorem upsertProjRow_find_other (table : List SlotAvailabilityRow)
    (new : SlotAvailabilityRow) (b s : String)
    (hneq : ¬(new.bucketId = b ∧ new.slotId = s)) :
    (upsertProjRow table new).find? (projKeyMatch b s) =
      table.find? (projKeyMatch b s) := by
  have hnewkey : projKeyMatch b s new = false := by
    rw [← Bool.not_eq_true, projKeyMatch_eq_true_iff]
    exact hneq
  rw [upsertProjRow]
  by_cases hany : table.any (projKeyMatch new.bucketId new.slotId) = true
  · rw [if_pos hany]
    apply find?_map_invariant
    · intro t _
      by_cases hk : projKeyMatch new.bucketId new.slotId t = true
      · rw [if_pos hk]
        by_cases hu : t.updatedAt < new.updatedAt
        · rw [if_pos hu, hnewkey]
          rw [projKeyMatch_eq_true_iff] at hk
          symm
          rw [← Bool.not_eq_true, projKeyMatch_eq_true_iff]
          intro hc
          exact hneq ⟨hk.1.symm.trans hc.1, hk.2.symm.trans hc.2⟩
        · rw [if_neg hu]
      · rw [if_neg hk]
    · intro t _ hpt
      by_cases hk : projKeyMatch new.bucketId new.slotId t = true
      · exfalso
        rw [projKeyMatch_eq_true_iff] at hk hpt
        exact hneq ⟨hk.1.symm.trans hpt.1, hk.2.symm.trans hpt.2⟩
      · rw [if_neg hk]
  · rw [if_neg hany, List.find?_append]
    have : List.find? (projKeyMatch b s) [new] = none := by
      simp [hnewkey]
    rw [this]
    simp

theorem applyProjUpserts_find_untouched (b s : String)
    (newRows : List SlotAvailabilityRow) :
    ∀ table, (∀ nr ∈ newRows, ¬(nr.bucketId = b ∧ nr.slotId = s)) →
      (applyProjUpserts table newRows).find? (projKeyMatch b s) =
        table.find? (projKeyMatch b s) := by
  induction newRows with
  | nil => intro table _; rfl
  | cons nr rest ih =>
      intro table h
      have hstep : applyProjUpserts table (nr :: rest) =
          applyProjUpserts (upsertProjRow table nr) rest := rfl
      rw [hstep, ih _ (fun x hx => h x (List.mem_cons_of_mem nr hx)),
        upsertProjRow_find_other table nr b s (h nr (List.mem_cons_self nr rest))]

theorem applyProjUpserts_find_target (nr : SlotAvailabilityRow)
    (pre post : List SlotAvailabilityRow) (table : List SlotAvailabilityRow)
    (hpre : ∀ x ∈ pre, ¬(x.bucketId = nr.bucketId ∧ x.slotId = nr.slotId))
    (hpost : ∀ x ∈ post, ¬(x.bucketId = nr.bucketId ∧ x.slotId = nr.slotId)) :
    (applyProjUpserts table (pre ++ nr :: post)).find?
        (projKeyMatch nr.bucketId nr.slotId) =
      some (match table.find? (projKeyMatch nr.bucketId nr.slotId) with
            | none => nr
            | some r => if r.updatedAt < nr.updatedAt then nr else r) := by
  have hfold : applyProjUpserts table (pre ++ nr :: post) =
      applyProjUpserts (upsertProjRow (applyProjUpserts table pre) nr) post := by
    rw [applyProjUpserts, List.foldl_append]
    rfl
  rw [hfold, applyProjUpserts_find_untouched nr.bucketId nr.slotId post _ hpost]
  cases hfind : (applyProjUpserts table pre).find?
      (projKeyMatch nr.bucketId nr.slotId) with
  | none =>
      rw [upsertProjRow_find_none _ _ hfind]
      rw [applyProjUpserts_find_untouched nr.bucketId nr.slotId pre table hpre]
        at hfind
      rw [hfind]
  | some r =>
      rw [upsertProjRow_find_self _ _ r hfind]
      rw [applyProjUpserts_find_untouched nr.bucketId nr.slotId pre table hpre]
        at hfind
      rw [hfind]

theorem bySlot_isSome_of_mem (rows : List FetchRow) (sid : String)
    (h : sid ∈ currSetOf rows) : (bySlot rows sid).isSome = true := by
  simp only [currSetOf, List.mem_dedup, List.mem_map] at h
  obtain ⟨fr, hfr, hsid⟩ := h
  rw [bySlot, List.find?_isSome]
  exact ⟨fr, List.mem_reverse.mpr hfr, by simp [hsid]⟩

theorem split_of_mem_nodup (l : List String) (a : String) (hnd : l.Nodup)
    (h : a ∈ l) :
    ∃ pre post, l = pre ++ a :: post ∧ a ∉ pre ∧ a ∉ post := by
  obtain ⟨pre, post, rfl⟩ := List.append_of_mem h
  rw [List.nodup_append] at hnd
  obtain ⟨_, hnd2, hdisj⟩ := hnd
  rw [List.nodup_cons] at hnd2
  refine ⟨pre, post, rfl, ?_, hnd2.1⟩
  intro hapre
  exact hdisj hapre (List.mem_cons_self a post)

theorem applyProjUpserts_mapped_find (bid sid : String) (rows : List FetchRow)
    (now : Int) (runId : String) (sids : List String)
    (table : List SlotAvailabilityRow) (hnd : sids.Nodup) (hmem : sid ∈ sids) :
    (applyProjUpserts table (sids.map (fun x =>
        buildSlotAvailabilityRow bid x (bySlot rows x) now runId))).find?
      (projKeyMatch bid sid) =
      some (match table.find? (projKeyMatch bid sid) with
            | none => buildSlotAvailabilityRow bid sid (bySlot rows sid) now runId
            | some r =>
                if r.updatedAt < now then
                  buildSlotAvailabilityRow bid sid (bySlot rows sid) now runId
                else r) := by
  obtain ⟨pre, post, heq, hpre, hpost⟩ := split_of_mem_nodup sids sid hnd hmem
  subst heq
  rw [List.map_append, List.map_cons]
  have hpre2 : ∀ x ∈ pre.map (fun x =>
      buildSlotAvailabilityRow bid x (bySlot rows x) now runId),
      ¬(x.bucketId = bid ∧ x.slotId = sid) := by
    intro x hx
    simp only [List.mem_map] at hx
    obtain ⟨x2, hx2, rfl⟩ := hx
    intro hc
    have h3 : x2 = sid := hc.2
    exact hpre (h3 ▸ hx2)
  have hpost2 : ∀ x ∈ post.map (fun x =>
      buildSlotAvailabilityRow bid x (bySlot rows x) now runId),
      ¬(x.bucketId = bid ∧ x.slotId = sid) := by
    intro x hx
    simp only [List.mem_map] at hx
    obtain ⟨x2, hx2, rfl⟩ := hx
    intro hc
    have h3 : x2 = sid := hc.2
    exact hpost (h3 ▸ hx2)
  exact applyProjUpserts_find_target
    (buildSlotAvailabilityRow bid sid (bySlot rows sid) now runId)
    (pre.map (fun x => buildSlotAvailabilityRow bid x (bySlot rows x) now runId))
    (post.map (fun x => buildSlotAvailabilityRow bid x (bySlot rows x) now runId))
    table hpre2 hpost2

/-- C6: every projection upsert — the bootstrap write for the whole snapshot
and the normal poll's write for every added slot — overwrites an existing
`(bucket_id, slot_id)` row if and only if the stored `updated_at` is strictly
below the incoming `updated_at = now`; the overwrite installs the incoming row,
whose `closed_at` is null (re-open); otherwise the stored row is returned
unchanged by the key lookup. -/
theorem projUpsert_last_writer_wins (db : DB) (bid : String) (rows : List FetchRow)
    (now : Int) (runId : String) (brow : BucketRow) (sid : String)
    (r : SlotAvailabilityRow)
    (hfind : db.slotAvailability.find? (projKeyMatch bid sid) = some r) :
    (sid ∈ currSetOf rows →
      (bootstrapSlotAvailability db.slotAvailability bid rows (currSetOf rows) now
          runId).find? (projKeyMatch bid sid) =
        some (if r.updatedAt < now then
          buildSlotAvailabilityRow bid sid (bySlot rows sid) now runId else r)) ∧
    (sid ∈ pollAdded rows brow →
      (pollProj1 db bid rows now runId brow).find? (projKeyMatch bid sid) =
        some (if r.updatedAt < now then
          buildSlotAvailabilityRow bid sid (bySlot rows sid) now runId else r)) ∧
    (buildSlotAvailabilityRow bid sid (bySlot rows sid) now runId).closedAt =
      none := by
  refine ⟨?_, ?_, rfl⟩
  · intro hmem
    have hne : (currSetOf rows).isEmpty = false := by
      rw [List.isEmpty_eq_false_iff_exists_mem]
      exact ⟨sid, hmem⟩
    have hmemf : sid ∈ (currSetOf rows).filter
        (fun x => (bySlot rows x).isSome) := by
      rw [List.mem_filter]
      exact ⟨hmem, bySlot_isSome_of_mem rows sid hmem⟩
    have hnd : ((currSetOf rows).filter (fun x => (bySlot rows x).isSome)).Nodup :=
      (List.nodup_dedup _).filter _
    rw [bootstrapSlotAvailability, hne]
    simp only [Bool.false_eq_true, if_false]
    rw [applyProjUpserts_mapped_find bid sid rows now runId _ _ hnd hmemf, hfind]
  · intro hmem
    have hnd : (pollAdded rows brow).Nodup := by
      rw [pollAdded, addedOf]
      exact (List.nodup_dedup _).filter _
    rw [pollProj1, pollSlotRows,
      applyProjUpserts_mapped_find bid sid rows now runId _ _ hnd hmem, hfind]

/-- Witness for `projUpsert_last_writer_wins`: a stale stored row
(`updated_at = 10 < now = 20`) is overwritten by the added-slot upsert. -/
theorem projUpsert_last_writer_wins_witness :
    ((⟨[], [⟨"b1", "s1", "open", 0, none, none, some "v", some "r0", 10⟩],
        [], [], 0⟩ : DB).slotAvailability.find? (projKeyMatch "b1" "s1") =
      some ⟨"b1", "s1", "open", 0, none, none, some "v", some "r0", 10⟩) ∧
    ("s1" ∈ pollAdded [⟨"s1", some "v"⟩]
      ⟨"b1", "2026-02-14", "20:30", some [], some [], none⟩) ∧
    ((pollProj1
        ⟨[], [⟨"b1", "s1", "open", 0, none, none, some "v", some "r0", 10⟩],
         [], [], 0⟩
        "b1" [⟨"s1", some "v"⟩] 20 "r1"
        ⟨"b1", "2026-02-14", "20:30", some [], some [], none⟩).find?
        (projKeyMatch "b1" "s1") =
      some (if (10 : Int) < 20 then
        buildSlotAvailabilityRow "b1" "s1" (bySlot [⟨"s1", some "v"⟩] "s1") 20 "r1"
        else ⟨"b1", "s1", "open", 0, none, none, some "v", some "r0", 10⟩)) :=
  ⟨by decide, by decide,
   (projUpsert_last_writer_wins
      ⟨[], [⟨"b1", "s1", "open", 0, none, none, some "v", some "r0", 10⟩],
       [], [], 0⟩
      "b1" [⟨"s1", some "v"⟩] 20 "r1"
      ⟨"b1", "2026-02-14", "20:30", some [], some [], none⟩ "s1"
      ⟨"b1", "s1", "open", 0, none, none, some "v", some "r0", 10⟩
      (by decide)).2.1 (by decide)⟩

theorem mem_recentlyNotified (events : List DropEventRow) (bid : String)
    (cutoff : Int) (sid : String) :
    sid ∈ recentlyNotifiedOf events bid cutoff ↔
      ∃ e0 ∈ events, e0.bucketId = bid ∧ cutoff ≤ e0.openedAt ∧
        e0.slotId = sid := by
  simp only [recentlyNotifiedOf, List.mem_dedup, List.mem_map, List.mem_filter,
    Bool.and_eq_true, beq_iff_eq, decide_eq_true_eq]
  constructor
  · rintro ⟨e0, ⟨he0, hb, hc⟩, rfl⟩
    exact ⟨e0, he0, hb, hc, rfl⟩
  · rintro ⟨e0, he0, hb, hc, rfl⟩
    exact ⟨e0, ⟨he0, hb, hc⟩, rfl⟩

theorem pollDropsToEmit_not_recent (cfg : PollConfig) (db : DB) (bid : String)
    (rows : List FetchRow) (now : Int) (brow : BucketRow) (sid : String)
    (h : sid ∈ pollDropsToEmit cfg db bid rows now brow) :
    ∀ e0 ∈ db.dropEvents, e0.bucketId = bid → e0.slotId = sid →
      e0.openedAt < now - cfg.dedupeMinutes * 60 := by
  intro e0 he0 hb hs
  simp only [pollDropsToEmit, List.mem_filter, Bool.not_eq_true'] at h
  have hnotin : sid ∉ pollRecentlyNotified cfg db bid now := by
    intro hc
    rw [← contains_iff_mem] at hc
    rw [h.2] at hc
    cases hc
  rw [pollRecentlyNotified, mem_recentlyNotified] at hnotin
  by_contra hlt
  push_neg at hlt
  exact hnotin ⟨e0, he0, hb, hlt, hs⟩

theorem pairwise_slotIds_dropRows (cfg : PollConfig) (db : DB) (bid : String)
    (rows : List FetchRow) (now : Int) (brow : BucketRow) :
    (pollDropRows cfg db bid rows now brow).Pairwise
      (fun a b => a.slotId ≠ b.slotId) := by
  have hnd : (pollDropsToEmit cfg db bid rows now brow).Nodup := by
    apply List.Nodup.filter
    apply List.Nodup.filter
    rw [pollAdded, addedOf]
    exact (List.nodup_dedup _).filter _
  rw [pollDropRows, List.pairwise_map]
  exact hnd

theorem length_filter_le_one_of_pairwise {p : DropEventRow → Bool} (s : String)
    (l : List DropEventRow) (hpw : l.Pairwise (fun a b => a.slotId ≠ b.slotId))
    (hp : ∀ e, p e = true → e.slotId = s) :
    (l.filter p).length ≤ 1 := by
  have hpw2 : (l.filter p).Pairwise (fun a b => a.slotId ≠ b.slotId) :=
    hpw.sublist (List.filter_sublist l)
  cases hfp : l.filter p with
  | nil => simp
  | cons x rest =>
      cases rest with
      | nil => simp
      | cons y rest2 =>
          exfalso
          rw [hfp] at hpw2
          have hx : p x = true :=
            List.of_mem_filter (l := l) (hfp ▸ List.mem_cons_self x (y :: rest2))
          have hy : p y = true :=
            List.of_mem_filter (l := l)
              (hfp ▸ List.mem_cons_of_mem x (List.mem_cons_self y rest2))
          have := (List.pairwise_cons.mp hpw2).1 y (List.mem_cons_self y rest2)
          exact this ((hp x hx).trans (hp y hy).symm)

theorem filter_append_le_one {p : DropEventRow → Bool}
    (old kept : List DropEventRow)
    (hold : (old.filter p).length ≤ 1)
    (hkept : (kept.filter p).length ≤ 1)
    (hmix : ∀ e0 ∈ old, p e0 = true → ∀ e1 ∈ kept, p e1 = true → False) :
    (((old ++ kept)).filter p).length ≤ 1 := by
  rw [List.filter_append, List.length_append]
  cases hk : (kept.filter p).length with
  | zero => simpa using hold
  | succ n =>
      have hex : ∃ e1, e1 ∈ kept.filter p := by
        cases hfp : kept.filter p with
        | nil => rw [hfp] at hk; cases hk
        | cons a l2 => exact ⟨a, hfp ▸ List.mem_cons_self a l2⟩
      obtain ⟨e1, he1⟩ := hex
      have hzero : (old.filter p).length = 0 := by
        by_contra hnz
        have hex0 : ∃ e0, e0 ∈ old.filter p := by
          cases hfp : old.filter p with
          | nil => rw [hfp] at hnz; exact absurd rfl hnz
          | cons a l2 => exact ⟨a, hfp ▸ List.mem_cons_self a l2⟩
        obtain ⟨e0, he0⟩ := hex0
        exact hmix e0 (List.mem_of_mem_filter he0) (List.of_mem_filter he0) e1
          (List.mem_of_mem_filter he1) (List.of_mem_filter he1)
      rw [hzero, ← hk]
      simpa using hkept

theorem sublist_events2_events1 (cfg : PollConfig) (db : DB) (bid : String)
    (rows : List FetchRow) (now : Int) (runId : String) (brow : BucketRow) :
    (pollNormal cfg db bid rows now runId brow).db.dropEvents.Sublist
      (pollEvents1 cfg db bid rows now brow) := by
  simp only [pollNormal]
  by_cases hc : (pollClosedIds db bid rows now runId brow).isEmpty
  · simp [hc]
  · rw [if_neg hc]
    exact List.filter_sublist _

/-- C4: during a normal (non-bootstrap) poll no drop event is inserted for a
slot that already has a drop event of the same bucket with
`opened_at ≥ now − NOTIFIED_DEDUPE_MINUTES` (first conjunct: every freshly
inserted event's slot had no stored event at or after the cutoff), and
consequently the table invariant "for any `(bucket, slot)` at most one drop
event opened inside any half-open window of `T_dedupe` seconds" is preserved
by the poll (second conjunct). -/
theorem ttlDedupe_window (cfg : PollConfig) (db : DB)
    (bid dateStr timeSlot : String) (rows : List FetchRow) (now : Int)
    (runId : String) (brow : BucketRow) (bl : List String)
    (hfind : bucketFind db bid = some brow)
    (hb : brow.baselineSlotIds = some bl) :
    (∀ e ∈ (runPollForBucket cfg db bid dateStr timeSlot rows now
        runId).db.dropEvents,
      e ∉ db.dropEvents →
      ∀ e0 ∈ db.dropEvents, e0.bucketId = bid → e0.slotId = e.slotId →
        e0.openedAt < now - cfg.dedupeMinutes * 60) ∧
    (dropWindowBounded (cfg.dedupeMinutes * 60) db.dropEvents →
      dropWindowBounded (cfg.dedupeMinutes * 60)
        (runPollForBucket cfg db bid dateStr timeSlot rows now
          runId).db.dropEvents) := by
  have hrun : runPollForBucket cfg db bid dateStr timeSlot rows now runId =
      pollNormal cfg db bid rows now runId brow := by
    simp [runPollForBucket, hfind, hb]
  constructor
  · intro e he hnew e0 he0 hb0 hs0
    rw [hrun] at he
    have hdr := pollNormal_new_event_mem cfg db bid rows now runId brow e he hnew
    simp only [pollDropRows, List.mem_map] at hdr
    obtain ⟨sid, hsid, rfl⟩ := hdr
    exact pollDropsToEmit_not_recent cfg db bid rows now brow sid hsid e0 he0 hb0 hs0
  · intro hw b s t0
    rw [hrun]
    have hsub := sublist_events2_events1 cfg db bid rows now runId brow
    refine Nat.le_trans (List.Sublist.length_le (hsub.filter _)) ?_
    obtain ⟨kept, hk, hks⟩ :=
      insertDropEvents_decompose (pollDropRows cfg db bid rows now brow)
        db.dropEvents
    rw [pollEvents1, hk]
    apply filter_append_le_one
    · exact hw b s t0
    · refine length_filter_le_one_of_pairwise s kept
        ((pairwise_slotIds_dropRows cfg db bid rows now brow).sublist hks) ?_
      intro e hpe
      simp only [Bool.and_eq_true, beq_iff_eq, decide_eq_true_eq] at hpe
      exact hpe.1.1.2
    · intro e0 he0 hp0 e1 he1 hp1
      have he1d := hks.subset he1
      simp only [pollDropRows, List.mem_map] at he1d
      obtain ⟨sid, hsid, rfl⟩ := he1d
      simp only [Bool.and_eq_true, beq_iff_eq, decide_eq_true_eq] at hp0 hp1
      have hbid : bid = b := hp1.1.1.1
      have hsid2 : sid = s := hp1.1.1.2
      have hnow1 : t0 ≤ now := hp1.1.2
      have hnow2 : now < t0 + cfg.dedupeMinutes * 60 := hp1.2
      have hrec := pollDropsToEmit_not_recent cfg db bid rows now brow sid hsid e0
        he0 (hp0.1.1.1.trans hbid.symm) (hp0.1.1.2.trans hsid2.symm)
      have h1 : t0 ≤ e0.openedAt := hp0.1.2
      have h2 : e0.openedAt < t0 + cfg.dedupeMinutes * 60 := hp0.2
      omega

/-- Witness for `ttlDedupe_window` on a concrete normal poll emitting one
drop event from an empty event table. -/
theorem ttlDedupe_window_witness :
    (bucketFind
        ⟨[⟨"b1", "2026-02-14", "20:30", some [], some [], some 0⟩], [], [], [], 0⟩
        "b1" =
      some ⟨"b1", "2026-02-14", "20:30", some [], some [], some 0⟩) ∧
    dropWindowBounded ((30 : Int) * 60)
      (runPollForBucket ⟨30⟩
        ⟨[⟨"b1", "2026-02-14", "20:30", some [], some [], some 0⟩], [], [], [], 0⟩
        "b1" "2026-02-14" "20:30" [⟨"sB", some "vB"⟩] 100 "r1").db.dropEvents :=
  ⟨by decide,
   (ttlDedupe_window ⟨30⟩
      ⟨[⟨"b1", "2026-02-14", "20:30", some [], some [], some 0⟩], [], [], [], 0⟩
      "b1" "2026-02-14" "20:30" [⟨"sB", some "vB"⟩] 100 "r1"
      ⟨"b1", "2026-02-14", "20:30", some [], some [], some 0⟩ []
      (by decide) (by decide)).2
     (by
       intro b s t0
       simp [dropWindowBounded])⟩

theorem closeFold_nonneg (bid : String) (now : Int) :
    ∀ (L : List SlotAvailabilityRow)
      (acc : List AvailabilityStateRow × List ClosedEventData),
    (∀ c ∈ acc.2, 0 ≤ c.dropDurationSeconds) →
    ∀ c ∈ (L.foldl (closeSessionStep bid now) acc).2, 0 ≤ c.dropDurationSeconds := by
  intro L
  induction L with
  | nil => intro acc h; exact h
  | cons row rest ih =>
      intro acc h
      rw [List.foldl_cons]
      apply ih
      rw [closeSessionStep]
      by_cases hd : now - row.openedAt < 0
      · rw [if_pos hd]; exact h
      · rw [if_neg hd]
        cases hfind : acc.1.find? (fun s =>
            s.bucketId == bid && s.slotId == row.slotId && s.closedAt.isNone) with
        | none => exact h
        | some st =>
            intro c hc
            simp only [List.mem_append, List.mem_singleton] at hc
            cases hc with
            | inl h2 => exact h c h2
            | inr h2 =>
                subst h2
                simpa using Int.not_lt.mp hd

theorem stateIds_ne_of_mem (table : List AvailabilityStateRow)
    (huniq : stateIdsUnique table) (a b : AvailabilityStateRow)
    (ha : a ∈ table) (hb : b ∈ table) (hne : a ≠ b) : a.id ≠ b.id :=
  List.Pairwise.forall (fun _ _ h => Ne.symm h) huniq ha hb hne

theorem closeSessionStep_ids (bid : String) (now : Int)
    (acc : List AvailabilityStateRow × List ClosedEventData)
    (row : SlotAvailabilityRow)
    (huniq : stateIdsUnique acc.1) :
    stateIdsUnique (closeSessionStep bid now acc row).1 := by
  rw [closeSessionStep]
  by_cases hd : now - row.openedAt < 0
  · rw [if_pos hd]; exact huniq
  · rw [if_neg hd]
    cases hfind : acc.1.find? (fun s =>
        s.bucketId == bid && s.slotId == row.slotId && s.closedAt.isNone) with
    | none => exact huniq
    | some st =>
        simp only
        rw [stateIdsUnique, List.pairwise_map]
        apply huniq.imp_of_mem
        intro a b _ _ hab
        by_cases h1 : a.id == st.id <;> by_cases h2 : b.id == st.id <;>
          simp [h1, h2] <;> exact hab

theorem closeFold_untouched (bid : String) (now : Int) (st : AvailabilityStateRow) :
    ∀ (L : List SlotAvailabilityRow)
      (acc : List AvailabilityStateRow × List ClosedEventData),
    stateIdsUnique acc.1 → st ∈ acc.1 →
    (∀ row ∈ L, row.slotId ≠ st.slotId ∨ now - row.openedAt < 0) →
    (∀ c ∈ acc.2, c.sessionId ≠ st.id) →
    st ∈ (L.foldl (closeSessionStep bid now) acc).1 ∧
    stateIdsUnique (L.foldl (closeSessionStep bid now) acc).1 ∧
    (∀ c ∈ (L.foldl (closeSessionStep bid now) acc).2, c.sessionId ≠ st.id) := by
  intro L
  induction L with
  | nil => intro acc h1 h2 _ h4; exact ⟨h2, h1, h4⟩
  | cons row rest ih =>
      intro acc h1 h2 h3 h4
      rw [List.foldl_cons]
      have hrow := h3 row (List.mem_cons_self row rest)
      have hrest : ∀ r ∈ rest, r.slotId ≠ st.slotId ∨ now - r.openedAt < 0 :=
        fun r hr => h3 r (List.mem_cons_of_mem row hr)
      apply ih
      · exact closeSessionStep_ids bid now acc row h1
      · rw [closeSessionStep]
        by_cases hd : now - row.openedAt < 0
        · rw [if_pos hd]; exact h2
        · rw [if_neg hd]
          cases hfind : acc.1.find? (fun s =>
              s.bucketId == bid && s.slotId == row.slotId && s.closedAt.isNone) with
          | none => exact h2
          | some st2 =>
              simp only
              have hslot : row.slotId ≠ st.slotId := by
                cases hrow with
                | inl h => exact h
                | inr h => exact absurd h hd
              have hpred := List.find?_some hfind
              simp only [Bool.and_eq_true, beq_iff_eq] at hpred
              have hne : st2 ≠ st := by
                intro hcontra
                subst hcontra
                exact hslot hpred.1.2.symm
              have hid : st.id ≠ st2.id :=
                stateIds_ne_of_mem acc.1 h1 st st2 h2
                  (List.mem_of_find?_eq_some hfind) (fun hc => hne hc.symm)
              refine List.mem_map.mpr ⟨st, h2, ?_⟩
              simp [hid]
      · exact hrest
      · rw [closeSessionStep]
        by_cases hd : now - row.openedAt < 0
        · rw [if_pos hd]; exact h4
        · rw [if_neg hd]
          cases hfind : acc.1.find? (fun s =>
              s.bucketId == bid && s.slotId == row.slotId && s.closedAt.isNone) with
          | none => exact h4
          | some st2 =>
              simp only
              intro c hc
              rcases List.mem_append.mp hc with h | h
              · exact h4 c h
              · have hslot : row.slotId ≠ st.slotId := by
                  cases hrow with
                  | inl h5 => exact h5
                  | inr h5 => exact absurd h5 hd
                have hpred := List.find?_some hfind
                simp only [Bool.and_eq_true, beq_iff_eq] at hpred
                have hne : st2 ≠ st := by
                  intro hcontra
                  subst hcontra
                  exact hslot hpred.1.2.symm
                rw [List.mem_singleton] at h
                subst h
                exact stateIds_ne_of_mem acc.1 h1 st2 st
                  (List.mem_of_find?_eq_some hfind) h2 hne

theorem closeFold_mem_preserved (bid : String) (now : Int)
    (st : AvailabilityStateRow) :
    ∀ (L : List SlotAvailabilityRow)
      (acc : List AvailabilityStateRow × List ClosedEventData),
    stateIdsUnique acc.1 → st ∈ acc.1 →
    (∀ row ∈ L, row.slotId ≠ st.slotId ∨ now - row.openedAt < 0) →
    st ∈ (L.foldl (closeSessionStep bid now) acc).1 ∧
    stateIdsUnique (L.foldl (closeSessionStep bid now) acc).1 := by
  intro L
  induction L with
  | nil => intro acc h1 h2 _; exact ⟨h2, h1⟩
  | cons row rest ih =>
      intro acc h1 h2 h3
      rw [List.foldl_cons]
      have hrow := h3 row (List.mem_cons_self row rest)
      apply ih
      · exact closeSessionStep_ids bid now acc row h1
      · rw [closeSessionStep]
        by_cases hd : now - row.openedAt < 0
        · rw [if_pos hd]; exact h2
        · rw [if_neg hd]
          cases hfind : acc.1.find? (fun s =>
              s.bucketId == bid && s.slotId == row.slotId && s.closedAt.isNone) with
          | none => exact h2
          | some st2 =>
              simp only
              have hslot : row.slotId ≠ st.slotId := by
                cases hrow with
                | inl h => exact h
                | inr h => exact absurd h hd
              have hpred := List.find?_some hfind
              simp only [Bool.and_eq_true, beq_iff_eq] at hpred
              have hne : st2 ≠ st := by
                intro hcontra
                subst hcontra
                exact hslot hpred.1.2.symm
              have hid : st.id ≠ st2.id :=
                stateIds_ne_of_mem acc.1 h1 st st2 h2
                  (List.mem_of_find?_eq_some hfind) (fun hc => hne hc.symm)
              refine List.mem_map.mpr ⟨st, h2, ?_⟩
              simp [hid]
      · exact fun r hr => h3 r (List.mem_cons_of_mem row hr)

theorem closeFold_events_mono (bid : String) (now : Int) :
    ∀ (L : List SlotAvailabilityRow)
      (acc : List AvailabilityStateRow × List ClosedEventData),
    ∀ c ∈ acc.2, c ∈ (L.foldl (closeSessionStep bid now) acc).2 := by
  intro L
  induction L with
  | nil => intro acc c hc; exact hc
  | cons row rest ih =>
      intro acc c hc
      rw [List.foldl_cons]
      apply ih
      rw [closeSessionStep]
      by_cases hd : now - row.openedAt < 0
      · rw [if_pos hd]; exact hc
      · rw [if_neg hd]
        cases hfind : acc.1.find? (fun s =>
            s.bucketId == bid && s.slotId == row.slotId && s.closedAt.isNone) with
        | none => exact hc
        | some st2 =>
            simp only
            exact List.mem_append_left _ hc

theorem closeSessionStep_keys (bid : String) (now : Int)
    (acc : List AvailabilityStateRow × List ClosedEventData)
    (row : SlotAvailabilityRow)
    (huniq : stateKeysUnique acc.1) :
    stateKeysUnique (closeSessionStep bid now acc row).1 := by
  rw [closeSessionStep]
  by_cases hd : now - row.openedAt < 0
  · rw [if_pos hd]; exact huniq
  · rw [if_neg hd]
    cases hfind : acc.1.find? (fun s =>
        s.bucketId == bid && s.slotId == row.slotId && s.closedAt.isNone) with
    | none => exact huniq
    | some st =>
        simp only
        rw [stateKeysUnique, List.pairwise_map]
        apply huniq.imp_of_mem
        intro a b _ _ hab
        by_cases h1 : a.id == st.id <;> by_cases h2 : b.id == st.id <;>
          simp [h1, h2] <;> exact fun hA hB => hab ⟨hA, hB⟩

theorem closeFold_keys (bid : String) (now : Int) :
    ∀ (L : List SlotAvailabilityRow)
      (acc : List AvailabilityStateRow × List ClosedEventData),
    stateKeysUnique acc.1 →
    stateKeysUnique (L.foldl (closeSessionStep bid now) acc).1 := by
  intro L
  induction L with
  | nil => intro acc h; exact h
  | cons row rest ih =>
      intro acc h
      rw [List.foldl_cons]
      exact ih _ (closeSessionStep_keys bid now acc row h)

theorem upsertStateRow_props (bid sid : String) (r : Option FetchRow) (now : Int)
    (acc : List AvailabilityStateRow × Nat)
    (hids : stateIdsUnique acc.1) (hkeys : stateKeysUnique acc.1)
    (hbelow : stateIdsBelow acc.1 acc.2) :
    stateIdsUnique (upsertStateRow acc bid sid r now).1 ∧
    stateKeysUnique (upsertStateRow acc bid sid r now).1 ∧
    stateIdsBelow (upsertStateRow acc bid sid r now).1
      (upsertStateRow acc bid sid r now).2 ∧
    acc.2 ≤ (upsertStateRow acc bid sid r now).2 ∧
    (∀ st ∈ acc.1, ¬(st.bucketId = bid ∧ st.slotId = sid) →
      st ∈ (upsertStateRow acc bid sid r now).1) := by
  rw [upsertStateRow]
  by_cases hc : acc.1.any (stateKeyMatch bid sid)
  · rw [if_pos hc]
    refine ⟨?_, ?_, ?_, Nat.le_refl _, ?_⟩
    · rw [stateIdsUnique, List.pairwise_map]
      apply hids.imp_of_mem
      intro a b _ _ hab
      by_cases h1 : stateKeyMatch bid sid a <;> by_cases h2 : stateKeyMatch bid sid b <;>
        simp [h1, h2] <;> exact hab
    · rw [stateKeysUnique, List.pairwise_map]
      apply hkeys.imp_of_mem
      intro a b _ _ hab
      by_cases h1 : stateKeyMatch bid sid a <;> by_cases h2 : stateKeyMatch bid sid b <;>
        simp [h1, h2] <;> exact fun hA hB => hab ⟨hA, hB⟩
    · intro s hs
      simp only [List.mem_map] at hs
      obtain ⟨a, ha, rfl⟩ := hs
      by_cases h1 : stateKeyMatch bid sid a <;> simp [h1] <;> exact hbelow a ha
    · intro st hst hne
      refine List.mem_map.mpr ⟨st, hst, ?_⟩
      have h1 : stateKeyMatch bid sid st = false := by
        rw [← Bool.not_eq_true]
        simp only [stateKeyMatch, Bool.and_eq_true, beq_iff_eq]
        exact fun hc2 => hne hc2
      simp [h1]
  · rw [if_neg hc]
    have hnotin : ∀ a ∈ acc.1, stateKeyMatch bid sid a = false := by
      intro a ha
      rw [← Bool.not_eq_true]
      intro hcon
      exact hc (List.any_eq_true.mpr ⟨a, ha, hcon⟩)
    refine ⟨?_, ?_, ?_, Nat.le_succ _, ?_⟩
    · rw [stateIdsUnique, List.pairwise_append]
      refine ⟨hids, List.pairwise_singleton _ _, ?_⟩
      intro a ha b hb
      rw [List.mem_singleton] at hb
      subst hb
      exact fun hid => Nat.lt_irrefl _ (hid ▸ hbelow a ha)
    · rw [stateKeysUnique, List.pairwise_append]
      refine ⟨hkeys, List.pairwise_singleton _ _, ?_⟩
      intro a ha b hb
      rw [List.mem_singleton] at hb
      subst hb
      intro hk
      have := hnotin a ha
      simp only [stateKeyMatch, Bool.and_eq_false_iff, beq_eq_false_iff_ne, ne_eq]
        at this
      cases this with
      | inl h => exact h hk.1
      | inr h => exact h hk.2
    · intro s hs
      rcases List.mem_append.mp hs with h | h
      · exact Nat.lt_trans (hbelow s h) (Nat.lt_succ_self _)
      · rw [List.mem_singleton] at h
        subst h
        exact Nat.lt_succ_self _
    · intro st hst _
      exact List.mem_append_left _ hst

theorem applyStateUpserts_props (bid : String) (rows : List FetchRow) (now : Int) :
    ∀ (sids : List String) (table : List AvailabilityStateRow) (nextId : Nat),
    stateIdsUnique table → stateKeysUnique table → stateIdsBelow table nextId →
    stateIdsUnique (applyStateUpserts table nextId bid rows now sids).1 ∧
    stateKeysUnique (applyStateUpserts table nextId bid rows now sids).1 ∧
    (∀ st ∈ table, (∀ sid ∈ sids, ¬(st.bucketId = bid ∧ st.slotId = sid)) →
      st ∈ (applyStateUpserts table nextId bid rows now sids).1) := by
  intro sids
  induction sids with
  | nil =>
      intro table nextId h1 h2 _
      exact ⟨h1, h2, fun st hst _ => hst⟩
  | cons sid rest ih =>
      intro table nextId h1 h2 h3
      have hstep := upsertStateRow_props bid sid (bySlot rows sid) now
        (table, nextId) h1 h2 h3
      have hfold : applyStateUpserts table nextId bid rows now (sid :: rest) =
          applyStateUpserts (upsertStateRow (table, nextId) bid sid
            (bySlot rows sid) now).1
            (upsertStateRow (table, nextId) bid sid (bySlot rows sid) now).2
            bid rows now rest := rfl
      rw [hfold]
      have hrec := ih (upsertStateRow (table, nextId) bid sid
          (bySlot rows sid) now).1
        (upsertStateRow (table, nextId) bid sid (bySlot rows sid) now).2
        hstep.1 hstep.2.1 hstep.2.2.1
      refine ⟨hrec.1, hrec.2.1, ?_⟩
      intro st hst hne
      exact hrec.2.2 st
        (hstep.2.2.2.2 st hst (hne sid (List.mem_cons_self sid rest)))
        (fun s hs => hne s (List.mem_cons_of_mem sid hs))

theorem upsertProjRow_keys (table : List SlotAvailabilityRow)
    (new : SlotAvailabilityRow) (h : projKeysUnique table) :
    projKeysUnique (upsertProjRow table new) := by
  rw [upsertProjRow]
  by_cases hc : table.any (projKeyMatch new.bucketId new.slotId)
  · rw [if_pos hc]
    rw [projKeysUnique, List.pairwise_map]
    apply h.imp_of_mem
    intro a b _ _ hab
    by_cases h1 : projKeyMatch new.bucketId new.slotId a = true <;>
      by_cases h2 : projKeyMatch new.bucketId new.slotId b = true
    · rw [projKeyMatch_eq_true_iff] at h1 h2
      exact absurd ⟨h1.1.trans h2.1.symm, h1.2.trans h2.2.symm⟩ hab
    · rw [if_pos h1, if_neg h2]
      rw [projKeyMatch_eq_true_iff] at h2
      by_cases hu : a.updatedAt < new.updatedAt
      · rw [if_pos hu]
        intro hk
        exact h2 ⟨hk.1.symm, hk.2.symm⟩
      · rw [if_neg hu]; exact hab
    · rw [if_neg h1, if_pos h2]
      rw [projKeyMatch_eq_true_iff] at h1
      by_cases hu : b.updatedAt < new.updatedAt
      · rw [if_pos hu]
        intro hk
        exact h1 hk
      · rw [if_neg hu]; exact hab
    · rw [if_neg h1, if_neg h2]; exact hab
  · rw [if_neg hc]
    rw [projKeysUnique, List.pairwise_append]
    refine ⟨h, List.pairwise_singleton _ _, ?_⟩
    intro a ha b hb
    rw [List.mem_singleton] at hb
    intro hk
    have hnotin : ¬ projKeyMatch new.bucketId new.slotId a = true := by
      intro hcon
      exact hc (List.any_eq_true.mpr ⟨a, ha, hcon⟩)
    rw [projKeyMatch_eq_true_iff] at hnotin
    exact hnotin ⟨hb ▸ hk.1, hb ▸ hk.2⟩

theorem applyProjUpserts_keys (newRows : List SlotAvailabilityRow) :
    ∀ table, projKeysUnique table → projKeysUnique (applyProjUpserts table newRows) := by
  induction newRows with
  | nil => intro table h; exact h
  | cons nr rest ih =>
      intro table h
      exact ih _ (upsertProjRow_keys table nr h)

theorem upsertProjRow_mem_untouched (table : List SlotAvailabilityRow)
    (new x : SlotAvailabilityRow) (hx : x ∈ table)
    (hne : ¬(x.bucketId = new.bucketId ∧ x.slotId = new.slotId)) :
    x ∈ upsertProjRow table new := by
  rw [upsertProjRow]
  by_cases hc : table.any (projKeyMatch new.bucketId new.slotId)
  · rw [if_pos hc]
    refine List.mem_map.mpr ⟨x, hx, ?_⟩
    have h1 : ¬ projKeyMatch new.bucketId new.slotId x = true := by
      rw [projKeyMatch_eq_true_iff]
      exact hne
    simp [h1]
  · rw [if_neg hc]
    exact List.mem_append_left _ hx

theorem applyProjUpserts_mem_untouched (newRows : List SlotAvailabilityRow) :
    ∀ table x, x ∈ table →
    (∀ nr ∈ newRows, ¬(x.bucketId = nr.bucketId ∧ x.slotId = nr.slotId)) →
    x ∈ applyProjUpserts table newRows := by
  induction newRows with
  | nil => intro table x hx _; exact hx
  | cons nr rest ih =>
      intro table x hx hne
      exact ih _ x
        (upsertProjRow_mem_untouched table nr x hx
          (hne nr (List.mem_cons_self nr rest)))
        (fun n hn => hne n (List.mem_cons_of_mem nr hn))

theorem proj_eq_of_same_key (table : List SlotAvailabilityRow)
    (h : projKeysUnique table) (a b : SlotAvailabilityRow)
    (ha : a ∈ table) (hb : b ∈ table)
    (hk : a.bucketId = b.bucketId ∧ a.slotId = b.slotId) : a = b := by
  by_contra hne
  have hsym : Symmetric (fun a b : SlotAvailabilityRow =>
      ¬(a.bucketId = b.bucketId ∧ a.slotId = b.slotId)) :=
    fun x y hxy hk2 => hxy ⟨hk2.1.symm, hk2.2.symm⟩
  exact List.Pairwise.forall hsym h ha hb hne hk

theorem find?_eq_some_of_unique {α : Type} (l : List α) (p : α → Bool) (a : α)
    (ha : a ∈ l) (hpa : p a = true) (huni : ∀ b ∈ l, p b = true → b = a) :
    l.find? p = some a := by
  induction l with
  | nil => cases ha
  | cons x xs ih =>
      by_cases hx : p x = true
      · rw [List.find?_cons_of_pos _ hx]
        rw [huni x (List.mem_cons_self x xs) hx]
      · rw [List.find?_cons_of_neg _ hx]
        rcases List.mem_cons.mp ha with h | h
        · subst h; exact absurd hpa hx
        · exact ih h (fun b hb hpb => huni b (List.mem_cons_of_mem x hb) hpb)

theorem mem_pollProj1_untouched (db : DB) (bid : String) (rows : List FetchRow)
    (now : Int) (runId : String) (brow : BucketRow) (r : SlotAvailabilityRow)
    (hr : r ∈ db.slotAvailability) (hnc : r.slotId ∉ currSetOf rows) :
    r ∈ pollProj1 db bid rows now runId brow := by
  rw [pollProj1]
  apply applyProjUpserts_mem_untouched _ _ r hr
  intro nr hnr
  simp only [pollSlotRows, List.mem_map] at hnr
  obtain ⟨sid, hsid, rfl⟩ := hnr
  intro hk
  have h2 : r.slotId = sid := hk.2
  have h3 : sid ∈ currSetOf rows := (mem_pollAdded rows brow sid |>.mp hsid).1
  exact hnc (by rw [h2]; exact h3)

theorem closedRows_props (db : DB) (bid : String) (rows : List FetchRow)
    (now : Int) (runId : String) (brow : BucketRow) (a : SlotAvailabilityRow)
    (ha : a ∈ pollClosedRows db bid rows now runId brow) :
    a ∈ pollProj1 db bid rows now runId brow ∧ a.bucketId = bid ∧
    a.state = "open" ∧ a.slotId ∉ currSetOf rows := by
  rw [pollClosedRows, closedRowsOf, List.mem_filter] at ha
  have h2 := ha.2
  simp only [Bool.and_eq_true, beq_iff_eq, Bool.not_eq_true'] at h2
  refine ⟨ha.1, h2.1.1, h2.1.2, ?_⟩
  intro hc
  rw [← contains_iff_mem] at hc
  rw [h2.2] at hc
  cases hc

theorem mem_pollClosedRows (db : DB) (bid : String) (rows : List FetchRow)
    (now : Int) (runId : String) (brow : BucketRow) (r : SlotAvailabilityRow)
    (hr : r ∈ db.slotAvailability) (hb : r.bucketId = bid) (ho : r.state = "open")
    (hnc : r.slotId ∉ currSetOf rows) :
    r ∈ pollClosedRows db bid rows now runId brow := by
  rw [pollClosedRows, closedRowsOf, List.mem_filter]
  refine ⟨mem_pollProj1_untouched db bid rows now runId brow r hr hnc, ?_⟩
  have hcontains : (currSetOf rows).contains r.slotId = false := by
    rw [← Bool.not_eq_true]
    intro hc
    exact hnc (contains_iff_mem _ _ |>.mp hc)
  simp [hb, ho, hcontains, hnc]

theorem pollClosedRows_pairwise (db : DB) (bid : String) (rows : List FetchRow)
    (now : Int) (runId : String) (brow : BucketRow)
    (h : projKeysUnique db.slotAvailability) :
    (pollClosedRows db bid rows now runId brow).Pairwise
      (fun a b => a.slotId ≠ b.slotId) := by
  have hkeys : projKeysUnique (pollProj1 db bid rows now runId brow) :=
    applyProjUpserts_keys _ _ h
  have hpw : (pollClosedRows db bid rows now runId brow).Pairwise
      (fun a b => ¬(a.bucketId = b.bucketId ∧ a.slotId = b.slotId)) :=
    hkeys.sublist (by rw [pollClosedRows, closedRowsOf]; exact List.filter_sublist _)
  refine List.Pairwise.imp_of_mem ?_ hpw
  intro a b ha hb hab hs
  exact hab ⟨(closedRows_props db bid rows now runId brow a ha).2.1.trans
    (closedRows_props db bid rows now runId brow b hb).2.1.symm, hs⟩

theorem pollStateRes_props (db : DB) (bid : String) (rows : List FetchRow)
    (now : Int) (brow : BucketRow)
    (hids : stateIdsUnique db.availabilityState)
    (hkeys : stateKeysUnique db.availabilityState)
    (hbelow : stateIdsBelow db.availabilityState db.nextStateId) :
    stateIdsUnique (pollStateRes db bid rows now brow).1 ∧
    stateKeysUnique (pollStateRes db bid rows now brow).1 ∧
    (∀ st ∈ db.availabilityState, st.slotId ∉ currSetOf rows →
      st ∈ (pollStateRes db bid rows now brow).1) := by
  have hp := applyStateUpserts_props bid rows now (pollStateSids db bid rows brow)
    db.availabilityState db.nextStateId hids hkeys hbelow
  refine ⟨hp.1, hp.2.1, ?_⟩
  intro st hst hnc
  apply hp.2.2 st hst
  intro sid hsid hk
  have hmem : sid ∈ currSetOf rows := by
    simp only [pollStateSids, List.mem_filter] at hsid
    exact (mem_pollAdded rows brow sid |>.mp hsid.1).1
  exact hnc (by rw [hk.2]; exact hmem)

/-- C10: every `ClosedEventData` staged for aggregation has a non-negative
duration, and a closing slot whose projection `opened_at` lies in the future
of the poll's `now` is skipped: its projection row is still marked closed,
but its open `availability_state` row is kept untouched (`closed_at` stays
null) and nothing is staged for its state row's id. -/
theorem closure_skips_future_opened (cfg : PollConfig) (db : DB)
    (bid dateStr timeSlot : String) (rows : List FetchRow) (now : Int)
    (runId : String) (brow : BucketRow) (bl : List String)
    (hfind : bucketFind db bid = some brow)
    (hbase : brow.baselineSlotIds = some bl)
    (hids : stateIdsUnique db.availabilityState)
    (hkeys : stateKeysUnique db.availabilityState)
    (hbelow : stateIdsBelow db.availabilityState db.nextStateId)
    (hproj : projKeysUnique db.slotAvailability) :
    (∀ c ∈ (runPollForBucket cfg db bid dateStr timeSlot rows now
        runId).toAggregate, 0 ≤ c.dropDurationSeconds) ∧
    (∀ r ∈ db.slotAvailability, r.bucketId = bid → r.state = "open" →
      r.slotId ∉ currSetOf rows → now - r.openedAt < 0 →
      ({ r with state := "closed", closedAt := some now, lastSeenAt := some now,
                runId := some runId, updatedAt := now } ∈
        (runPollForBucket cfg db bid dateStr timeSlot rows now
          runId).db.slotAvailability) ∧
      (∀ st ∈ db.availabilityState, st.bucketId = bid → st.slotId = r.slotId →
        st.closedAt = none →
        st ∈ (runPollForBucket cfg db bid dateStr timeSlot rows now
          runId).db.availabilityState ∧
        (∀ c ∈ (runPollForBucket cfg db bid dateStr timeSlot rows now
          runId).toAggregate, c.sessionId ≠ st.id))) := by
  have hrun : runPollForBucket cfg db bid dateStr timeSlot rows now runId =
      pollNormal cfg db bid rows now runId brow := by
    simp [runPollForBucket, hfind, hbase]
  have hagg : (pollNormal cfg db bid rows now runId brow).toAggregate =
      ((pollClosedRows db bid rows now runId brow).foldl
        (closeSessionStep bid now)
        ((pollStateRes db bid rows now brow).1, [])).2 := rfl
  have hstate : (pollNormal cfg db bid rows now runId brow).db.availabilityState =
      ((pollClosedRows db bid rows now runId brow).foldl
        (closeSessionStep bid now)
        ((pollStateRes db bid rows now brow).1, [])).1 := rfl
  constructor
  · rw [hrun, hagg]
    exact closeFold_nonneg bid now _ _ (fun c hc => absurd hc (List.not_mem_nil c))
  · intro r hr hbid hopen hnc hneg
    have hproj1 : r ∈ pollProj1 db bid rows now runId brow :=
      mem_pollProj1_untouched db bid rows now runId brow r hr hnc
    have hcr : r ∈ pollClosedRows db bid rows now runId brow :=
      mem_pollClosedRows db bid rows now runId brow r hr hbid hopen hnc
    have hcid : r.slotId ∈ pollClosedIds db bid rows now runId brow := by
      rw [pollClosedIds, List.mem_dedup]
      exact List.mem_map.mpr ⟨r, hcr, rfl⟩
    constructor
    · rw [hrun]
      show _ ∈ markClosed (pollProj1 db bid rows now runId brow) bid
        (pollClosedIds db bid rows now runId brow) now runId
      rw [markClosed]
      have hne : (pollClosedIds db bid rows now runId brow).isEmpty = false := by
        rw [List.isEmpty_eq_false_iff_exists_mem]
        exact ⟨r.slotId, hcid⟩
      rw [hne]
      simp only [Bool.false_eq_true, if_false]
      refine List.mem_map.mpr ⟨r, hproj1, ?_⟩
      have hcont : (pollClosedIds db bid rows now runId brow).contains r.slotId =
          true := contains_iff_mem _ _ |>.mpr hcid
      have hcond : (r.bucketId == bid &&
          (pollClosedIds db bid rows now runId brow).contains r.slotId) = true := by
        simp [hbid, hcont, hcid]
      rw [if_pos hcond]
    · intro st hst hstb hsts hstopen
      have hsp := pollStateRes_props db bid rows now brow hids hkeys hbelow
      have hst1 : st ∈ (pollStateRes db bid rows now brow).1 :=
        hsp.2.2 st hst (by rw [hsts]; exact hnc)
      have hfold := closeFold_untouched bid now st
        (pollClosedRows db bid rows now runId brow)
        ((pollStateRes db bid rows now brow).1, []) hsp.1 hst1 ?hrows
        (fun c hc => absurd hc (List.not_mem_nil c))
      · constructor
        · rw [hrun, hstate]
          exact hfold.1
        · rw [hrun, hagg]
          exact fun c hc => hfold.2.2 c hc
      case hrows =>
        intro row hrow
        by_cases hsl : row.slotId = st.slotId
        · right
          have hrowp := closedRows_props db bid rows now runId brow row hrow
          have hrmem : row ∈ pollProj1 db bid rows now runId brow := hrowp.1
          have heq : row = r := by
            apply proj_eq_of_same_key (pollProj1 db bid rows now runId brow)
              (applyProjUpserts_keys _ _ hproj) row r hrmem hproj1
            exact ⟨hrowp.2.1.trans hbid.symm, hsl.trans hsts⟩
          rw [heq]
          exact hneg
        · left; exact hsl

/-- Witness for `closure_skips_future_opened`: a projection row opened at 10
closes in a poll at `now = 5`; its open state row survives untouched and
nothing is staged. -/
theorem closure_skips_future_opened_witness :
    ((⟨"b1", "sA", "closed", 10, some 5, some 5, some "v", some "r1", 5⟩ :
        SlotAvailabilityRow) ∈
      (runPollForBucket ⟨30⟩
        ⟨[⟨"b1", "2026-02-14", "20:30", some ["sA"], some ["sA"], some 0⟩],
         [⟨"b1", "sA", "open", 10, none, some 0, some "v", some "r0", 0⟩],
         [], [⟨0, "b1", "sA", 10, none, none, some "v", none⟩], 1⟩
        "b1" "2026-02-14" "20:30" [] 5 "r1").db.slotAvailability) ∧
    ((⟨0, "b1", "sA", 10, none, none, some "v", none⟩ : AvailabilityStateRow) ∈
      (runPollForBucket ⟨30⟩
        ⟨[⟨"b1", "2026-02-14", "20:30", some ["sA"], some ["sA"], some 0⟩],
         [⟨"b1", "sA", "open", 10, none, some 0, some "v", some "r0", 0⟩],
         [], [⟨0, "b1", "sA", 10, none, none, some "v", none⟩], 1⟩
        "b1" "2026-02-14" "20:30" [] 5 "r1").db.availabilityState) ∧
    (∀ c ∈ (runPollForBucket ⟨30⟩
        ⟨[⟨"b1", "2026-02-14", "20:30", some ["sA"], some ["sA"], some 0⟩],
         [⟨"b1", "sA", "open", 10, none, some 0, some "v", some "r0", 0⟩],
         [], [⟨0, "b1", "sA", 10, none, none, some "v", none⟩], 1⟩
        "b1" "2026-02-14" "20:30" [] 5 "r1").toAggregate,
      0 ≤ c.dropDurationSeconds) := by
  have h := closure_skips_future_opened ⟨30⟩
    ⟨[⟨"b1", "2026-02-14", "20:30", some ["sA"], some ["sA"], some 0⟩],
     [⟨"b1", "sA", "open", 10, none, some 0, some "v", some "r0", 0⟩],
     [], [⟨0, "b1", "sA", 10, none, none, some "v", none⟩], 1⟩
    "b1" "2026-02-14" "20:30" [] 5 "r1"
    ⟨"b1", "2026-02-14", "20:30", some ["sA"], some ["sA"], some 0⟩ ["sA"]
    (by decide) (by decide)
    (by unfold stateIdsUnique; decide)
    (by unfold stateKeysUnique; decide)
    (by unfold stateIdsBelow; decide)
    (by unfold projKeysUnique; decide)
  have h2 := h.2 ⟨"b1", "sA", "open", 10, none, some 0, some "v", some "r0", 0⟩
    (by decide) (by decide) (by decide) (by decide) (by decide)
  have h3 := h2.2 ⟨0, "b1", "sA", 10, none, none, some "v", none⟩
    (by decide) (by decide) (by decide) (by decide)
  exact ⟨h2.1, h3.1, h.1⟩

theorem state_eq_of_same_key (table : List AvailabilityStateRow)
    (h : stateKeysUnique table) (a b : AvailabilityStateRow)
    (ha : a ∈ table) (hb : b ∈ table)
    (hk : a.bucketId = b.bucketId ∧ a.slotId = b.slotId) : a = b := by
  by_contra hne
  have hsym : Symmetric (fun a b : AvailabilityStateRow =>
      ¬(a.bucketId = b.bucketId ∧ a.slotId = b.slotId)) :=
    fun x y hxy hk2 => hxy ⟨hk2.1.symm, hk2.2.symm⟩
  exact List.Pairwise.forall hsym h ha hb hne hk

theorem closeFold_closes (bid : String) (now : Int) (r : SlotAvailabilityRow)
    (st : AvailabilityStateRow) (L1 L2 : List SlotAvailabilityRow)
    (acc : List AvailabilityStateRow × List ClosedEventData)
    (hids : stateIdsUnique acc.1) (hkeys : stateKeysUnique acc.1)
    (hmem : st ∈ acc.1) (hstb : st.bucketId = bid) (hsts : st.slotId = r.slotId)
    (hstopen : st.closedAt = none) (hpos : 0 ≤ now - r.openedAt)
    (h1 : ∀ row ∈ L1, row.slotId ≠ r.slotId)
    (h2 : ∀ row ∈ L2, row.slotId ≠ r.slotId) :
    ({ st with closedAt := some now,
               durationSeconds := some (now - r.openedAt) } ∈
      ((L1 ++ r :: L2).foldl (closeSessionStep bid now) acc).1) ∧
    ((⟨r.venueId, now - r.openedAt, bid, st.id⟩ : ClosedEventData) ∈
      ((L1 ++ r :: L2).foldl (closeSessionStep bid now) acc).2) := by
  rw [List.foldl_append, List.foldl_cons]
  have hphase1 := closeFold_mem_preserved bid now st L1 acc hids hmem
    (fun row hrow => Or.inl (fun hc => h1 row hrow (hc.trans hsts)))
  have hkeys1 : stateKeysUnique (L1.foldl (closeSessionStep bid now) acc).1 :=
    closeFold_keys bid now L1 acc hkeys
  have hd : ¬(now - r.openedAt < 0) := Int.not_lt.mpr hpos
  have hfind : (L1.foldl (closeSessionStep bid now) acc).1.find? (fun s =>
      s.bucketId == bid && s.slotId == r.slotId && s.closedAt.isNone) = some st := by
    apply find?_eq_some_of_unique _ _ st hphase1.1
    · simp [hstb, hsts, hstopen]
    · intro b hb hpb
      simp only [Bool.and_eq_true, beq_iff_eq, Option.isNone_iff_eq_none] at hpb
      exact state_eq_of_same_key _ hkeys1 b st hb hphase1.1
        ⟨hpb.1.1.trans hstb.symm, hpb.1.2.trans hsts.symm⟩
  have hstep : closeSessionStep bid now (L1.foldl (closeSessionStep bid now) acc) r =
      ((L1.foldl (closeSessionStep bid now) acc).1.map (fun s =>
        if s.id == st.id then
          { s with closedAt := some now, durationSeconds := some (now - r.openedAt) }
        else s),
       (L1.foldl (closeSessionStep bid now) acc).2 ++
         [⟨r.venueId, now - r.openedAt, bid, st.id⟩]) := by
    rw [closeSessionStep]
    rw [if_neg hd, hfind]
  rw [hstep]
  have hclosed : ({ st with
      closedAt := some now,
      durationSeconds := some (now - r.openedAt) } : AvailabilityStateRow) ∈
      ((L1.foldl (closeSessionStep bid now) acc).1.map (fun s =>
        if s.id == st.id then
          { s with closedAt := some now, durationSeconds := some (now - r.openedAt) }
        else s)) := by
    refine List.mem_map.mpr ⟨st, hphase1.1, ?_⟩
    simp
  have hids2 : stateIdsUnique ((L1.foldl (closeSessionStep bid now) acc).1.map
      (fun s =>
        if s.id == st.id then
          { s with closedAt := some now, durationSeconds := some (now - r.openedAt) }
        else s)) := by
    rw [stateIdsUnique, List.pairwise_map]
    apply hphase1.2.imp_of_mem
    intro a b _ _ hab
    by_cases ha2 : a.id == st.id <;> by_cases hb2 : b.id == st.id <;>
      simp [ha2, hb2] <;> exact hab
  have hphase3 := closeFold_mem_preserved bid now
    ({ st with closedAt := some now, durationSeconds := some (now - r.openedAt) })
    L2
    ((L1.foldl (closeSessionStep bid now) acc).1.map (fun s =>
        if s.id == st.id then
          { s with closedAt := some now,
                   durationSeconds := some (now - r.openedAt) }
        else s),
     (L1.foldl (closeSessionStep bid now) acc).2 ++
       [⟨r.venueId, now - r.openedAt, bid, st.id⟩])
    hids2 hclosed
    (fun row hrow => Or.inl (fun hc => h2 row hrow (hc.trans hsts)))
  refine ⟨hphase3.1, ?_⟩
  apply closeFold_events_mono
  exact List.mem_append_right _ (List.mem_singleton.mpr rfl)

/-- Claim C5 (counterexample): the claim says every matching `availability_state`
row with `closed_at` null gets `closed_at = now` when its slot closes.  With a
projection row opened at `t = 10` and a poll at `now = 5` (clock skew), the
slot's projection row is marked closed, yet the source's
`if duration_seconds < 0: continue` skips the state row entirely: the final
`availability_state` table is unchanged, with `closed_at` still null. -/
theorem closure_state_update_counterexample :
    (runPollForBucket ⟨30⟩
      ⟨[⟨"b1", "2026-02-14", "20:30", some ["sA"], some ["sA"], some 0⟩],
       [⟨"b1", "sA", "open", 10, none, some 0, some "v", some "r0", 0⟩],
       [], [⟨0, "b1", "sA", 10, none, none, some "v", none⟩], 1⟩
      "b1" "2026-02-14" "20:30" [] 5 "r1").db.availabilityState =
      [⟨0, "b1", "sA", 10, none, none, some "v", none⟩] ∧
    (⟨"b1", "sA", "closed", 10, some 5, some 5, some "v", some "r1", 5⟩ :
        SlotAvailabilityRow) ∈
      (runPollForBucket ⟨30⟩
        ⟨[⟨"b1", "2026-02-14", "20:30", some ["sA"], some ["sA"], some 0⟩],
         [⟨"b1", "sA", "open", 10, none, some 0, some "v", some "r0", 0⟩],
         [], [⟨0, "b1", "sA", 10, none, none, some "v", none⟩], 1⟩
        "b1" "2026-02-14" "20:30" [] 5 "r1").db.slotAvailability := by
  exact ⟨by decide, by decide⟩

/-- Claim C5 (amended): at the end of a normal poll, (1) every projection row
of the bucket with `state = open` and `slot_id` outside `curr_set` is updated to
`state = closed` with `closed_at`, `last_seen_at`, `updated_at` set to the
poll's `now` and `run_id` to the poll's run id; (2) provided the computed
duration `now - opened_at` is nonnegative, each matching open
`availability_state` row gets `closed_at = now` and
`duration_seconds = now - opened_at` and is staged for aggregation; and
(3) every `drop_events` row of the bucket whose slot closes and whose
`push_sent_at` is non-null is deleted.  (The duration guard in part (2) is the
correction: the source skips state closure and staging when the duration is
negative.) -/
theorem closure_step_effects (cfg : PollConfig) (db : DB)
    (bid dateStr timeSlot : String) (rows : List FetchRow) (now : Int)
    (runId : String) (brow : BucketRow) (bl : List String)
    (hfind : bucketFind db bid = some brow)
    (hbase : brow.baselineSlotIds = some bl)
    (hids : stateIdsUnique db.availabilityState)
    (hkeys : stateKeysUnique db.availabilityState)
    (hbelow : stateIdsBelow db.availabilityState db.nextStateId)
    (hproj : projKeysUnique db.slotAvailability) :
    (∀ r ∈ db.slotAvailability, r.bucketId = bid → r.state = "open" →
      r.slotId ∉ currSetOf rows →
      ({ r with state := "closed", closedAt := some now, lastSeenAt := some now,
                runId := some runId, updatedAt := now } ∈
        (runPollForBucket cfg db bid dateStr timeSlot rows now
          runId).db.slotAvailability)) ∧
    (∀ r ∈ db.slotAvailability, r.bucketId = bid → r.state = "open" →
      r.slotId ∉ currSetOf rows → 0 ≤ now - r.openedAt →
      ∀ st ∈ db.availabilityState, st.bucketId = bid → st.slotId = r.slotId →
        st.closedAt = none →
        ({ st with
            closedAt := some now,
            durationSeconds := some (now - r.openedAt) } ∈
          (runPollForBucket cfg db bid dateStr timeSlot rows now
            runId).db.availabilityState) ∧
        ((⟨r.venueId, now - r.openedAt, bid, st.id⟩ : ClosedEventData) ∈
          (runPollForBucket cfg db bid dateStr timeSlot rows now
            runId).toAggregate)) ∧
    (∀ e ∈ db.dropEvents, e.bucketId = bid → e.pushSentAt ≠ none →
      (∃ r ∈ db.slotAvailability, r.bucketId = bid ∧ r.state = "open" ∧
        r.slotId = e.slotId ∧ r.slotId ∉ currSetOf rows) →
      e ∉ (runPollForBucket cfg db bid dateStr timeSlot rows now
        runId).db.dropEvents) := by
  have hrun : runPollForBucket cfg db bid dateStr timeSlot rows now runId =
      pollNormal cfg db bid rows now runId brow := by
    simp [runPollForBucket, hfind, hbase]
  refine ⟨?_, ?_, ?_⟩
  · intro r hr hbid hopen hnc
    have hproj1 : r ∈ pollProj1 db bid rows now runId brow :=
      mem_pollProj1_untouched db bid rows now runId brow r hr hnc
    have hcr : r ∈ pollClosedRows db bid rows now runId brow :=
      mem_pollClosedRows db bid rows now runId brow r hr hbid hopen hnc
    have hcid : r.slotId ∈ pollClosedIds db bid rows now runId brow := by
      rw [pollClosedIds, List.mem_dedup]
      exact List.mem_map.mpr ⟨r, hcr, rfl⟩
    rw [hrun]
    show _ ∈ markClosed (pollProj1 db bid rows now runId brow) bid
      (pollClosedIds db bid rows now runId brow) now runId
    rw [markClosed]
    have hne : (pollClosedIds db bid rows now runId brow).isEmpty = false := by
      rw [List.isEmpty_eq_false_iff_exists_mem]
      exact ⟨r.slotId, hcid⟩
    rw [hne]
    simp only [Bool.false_eq_true, if_false]
    refine List.mem_map.mpr ⟨r, hproj1, ?_⟩
    have hcont : (pollClosedIds db bid rows now runId brow).contains r.slotId =
        true := contains_iff_mem _ _ |>.mpr hcid
    have hcond : (r.bucketId == bid &&
        (pollClosedIds db bid rows now runId brow).contains r.slotId) = true := by
      simp [hbid, hcont, hcid]
    rw [if_pos hcond]
  · intro r hr hbid hopen hnc hpos st hst hstb hsts hstopen
    have hproj1 : r ∈ pollProj1 db bid rows now runId brow :=
      mem_pollProj1_untouched db bid rows now runId brow r hr hnc
    have hcr : r ∈ pollClosedRows db bid rows now runId brow :=
      mem_pollClosedRows db bid rows now runId brow r hr hbid hopen hnc
    obtain ⟨L1, L2, hsplit⟩ := List.append_of_mem hcr
    have hpw := pollClosedRows_pairwise db bid rows now runId brow hproj
    rw [hsplit] at hpw
    obtain ⟨pw1, pw2, hcross⟩ := List.pairwise_append.mp hpw
    have h1 : ∀ row ∈ L1, row.slotId ≠ r.slotId :=
      fun row hrow => hcross row hrow r (List.mem_cons_self r L2)
    have h2 : ∀ row ∈ L2, row.slotId ≠ r.slotId :=
      fun row hrow => ((List.pairwise_cons.mp pw2).1 row hrow).symm
    have hsp := pollStateRes_props db bid rows now brow hids hkeys hbelow
    have hst1 : st ∈ (pollStateRes db bid rows now brow).1 :=
      hsp.2.2 st hst (by rw [hsts]; exact hnc)
    have hfold := closeFold_closes bid now r st L1 L2
      ((pollStateRes db bid rows now brow).1, []) hsp.1 hsp.2.1 hst1 hstb hsts
      hstopen hpos h1 h2
    have hstate : (pollNormal cfg db bid rows now runId brow).db.availabilityState =
        ((pollClosedRows db bid rows now runId brow).foldl
          (closeSessionStep bid now)
          ((pollStateRes db bid rows now brow).1, [])).1 := rfl
    have hagg : (pollNormal cfg db bid rows now runId brow).toAggregate =
        ((pollClosedRows db bid rows now runId brow).foldl
          (closeSessionStep bid now)
          ((pollStateRes db bid rows now brow).1, [])).2 := rfl
    constructor
    · rw [hrun, hstate, hsplit]
      exact hfold.1
    · rw [hrun, hagg, hsplit]
      exact hfold.2
  · intro e he hbid hpush hex hmem
    obtain ⟨r, hr, hrb, hro, hrs, hrnc⟩ := hex
    have hcr : r ∈ pollClosedRows db bid rows now runId brow :=
      mem_pollClosedRows db bid rows now runId brow r hr hrb hro hrnc
    have hcid : e.slotId ∈ pollClosedIds db bid rows now runId brow := by
      rw [pollClosedIds, List.mem_dedup]
      exact List.mem_map.mpr ⟨r, hcr, hrs⟩
    have hne : (pollClosedIds db bid rows now runId brow).isEmpty = false := by
      rw [List.isEmpty_eq_false_iff_exists_mem]
      exact ⟨e.slotId, hcid⟩
    rw [hrun] at hmem
    have hev : (pollNormal cfg db bid rows now runId brow).db.dropEvents =
        (if (pollClosedIds db bid rows now runId brow).isEmpty then
          pollEvents1 cfg db bid rows now brow
        else (pollEvents1 cfg db bid rows now brow).filter (fun e2 =>
          !(e2.bucketId == bid &&
            (pollClosedIds db bid rows now runId brow).contains e2.slotId &&
            e2.pushSentAt.isSome))) := rfl
    rw [hev, hne] at hmem
    simp only [Bool.false_eq_true, if_false] at hmem
    have hkeep := List.of_mem_filter hmem
    simp only [Bool.not_eq_true', Bool.and_eq_false_iff, beq_eq_false_iff_ne,
      ne_eq] at hkeep
    rcases hkeep with (h3 | h3) | h3
    · exact h3 hbid
    · rw [← Bool.not_eq_true, contains_iff_mem] at h3
      exact h3 hcid
    · cases hp : e.pushSentAt with
      | none => exact hpush hp
      | some x => rw [hp] at h3; simp at h3

/-- Witness for the amended claim C5 at a concrete input: bucket `b1` with
baseline/prev `[sA]`, an open projection row and an open state row for `sA`
opened at `0`, and a pushed drop event; an empty observation at `now = 600`
closes the projection row, closes the state row with duration `600`, stages
the closed-event record, and deletes the pushed drop event. -/
theorem closure_step_effects_witness :
    ((⟨"b1", "sA", "closed", 0, some 600, some 600, some "v", some "r1", 600⟩ :
        SlotAvailabilityRow) ∈
      (runPollForBucket ⟨30⟩
        ⟨[⟨"b1", "2026-02-14", "20:30", some ["sA"], some ["sA"], some 0⟩],
         [⟨"b1", "sA", "open", 0, none, some 0, some "v", some "r0", 0⟩],
         [⟨"b1", "sA", 0, some "v", ⟨"b1", "sA", 0⟩, some 1⟩],
         [⟨0, "b1", "sA", 0, none, none, some "v", none⟩], 1⟩
        "b1" "2026-02-14" "20:30" [] 600 "r1").db.slotAvailability) ∧
    ((⟨0, "b1", "sA", 0, some 600, some 600, some "v", none⟩ :
        AvailabilityStateRow) ∈
      (runPollForBucket ⟨30⟩
        ⟨[⟨"b1", "2026-02-14", "20:30", some ["sA"], some ["sA"], some 0⟩],
         [⟨"b1", "sA", "open", 0, none, some 0, some "v", some "r0", 0⟩],
         [⟨"b1", "sA", 0, some "v", ⟨"b1", "sA", 0⟩, some 1⟩],
         [⟨0, "b1", "sA", 0, none, none, some "v", none⟩], 1⟩
        "b1" "2026-02-14" "20:30" [] 600 "r1").db.availabilityState) ∧
    ((⟨some "v", 600, "b1", 0⟩ : ClosedEventData) ∈
      (runPollForBucket ⟨30⟩
        ⟨[⟨"b1", "2026-02-14", "20:30", some ["sA"], some ["sA"], some 0⟩],
         [⟨"b1", "sA", "open", 0, none, some 0, some "v", some "r0", 0⟩],
         [⟨"b1", "sA", 0, some "v", ⟨"b1", "sA", 0⟩, some 1⟩],
         [⟨0, "b1", "sA", 0, none, none, some "v", none⟩], 1⟩
        "b1" "2026-02-14" "20:30" [] 600 "r1").toAggregate) ∧
    ((⟨"b1", "sA", 0, some "v", ⟨"b1", "sA", 0⟩, some 1⟩ : DropEventRow) ∉
      (runPollForBucket ⟨30⟩
        ⟨[⟨"b1", "2026-02-14", "20:30", some ["sA"], some ["sA"], some 0⟩],
         [⟨"b1", "sA", "open", 0, none, some 0, some "v", some "r0", 0⟩],
         [⟨"b1", "sA", 0, some "v", ⟨"b1", "sA", 0⟩, some 1⟩],
         [⟨0, "b1", "sA", 0, none, none, some "v", none⟩], 1⟩
        "b1" "2026-02-14" "20:30" [] 600 "r1").db.dropEvents) := by
  have h := closure_step_effects ⟨30⟩
    ⟨[⟨"b1", "2026-02-14", "20:30", some ["sA"], some ["sA"], some 0⟩],
     [⟨"b1", "sA", "open", 0, none, some 0, some "v", some "r0", 0⟩],
     [⟨"b1", "sA", 0, some "v", ⟨"b1", "sA", 0⟩, some 1⟩],
     [⟨0, "b1", "sA", 0, none, none, some "v", none⟩], 1⟩
    "b1" "2026-02-14" "20:30" [] 600 "r1"
    ⟨"b1", "2026-02-14", "20:30", some ["sA"], some ["sA"], some 0⟩ ["sA"]
    (by decide) rfl
    (by unfold stateIdsUnique; decide) (by unfold stateKeysUnique; decide)
    (by unfold stateIdsBelow; decide) (by unfold projKeysUnique; decide)
  have h2 := h.2.1 ⟨"b1", "sA", "open", 0, none, some 0, some "v", some "r0", 0⟩
    (by decide) rfl rfl (by decide) (by decide)
    ⟨0, "b1", "sA", 0, none, none, some "v", none⟩ (by decide) rfl rfl rfl
  refine ⟨?_, ?_, ?_, ?_⟩
  · exact h.1 ⟨"b1", "sA", "open", 0, none, some 0, some "v", some "r0", 0⟩
      (by decide) rfl rfl (by decide)
  · exact h2.1
  · exact h2.2
  · exact h.2.2 ⟨"b1", "sA", 0, some "v", ⟨"b1", "sA", 0⟩, some 1⟩
      (by decide) rfl (by decide)
      ⟨⟨"b1", "sA", "open", 0, none, some 0, some "v", some "r0", 0⟩,
        by decide, rfl, rfl, rfl, by decide⟩

theorem perm_insertSorted (x : String) (l : List String) :
    (insertSorted x l).Perm (x :: l) := by
  induction l with
  | nil => simp [insertSorted]
  | cons y ys ih =>
      simp only [insertSorted]
      by_cases h : strLe x y = true
      · rw [if_pos h]
      · rw [if_neg h]
        exact (List.Perm.cons y ih).trans (List.Perm.swap x y ys)

theorem perm_sortStrings (l : List String) : (sortStrings l).Perm l := by
  induction l with
  | nil => simp [sortStrings]
  | cons y ys ih =>
      simp only [sortStrings, List.foldr] at *
      exact (perm_insertSorted y _).trans (List.Perm.cons y ih)

theorem nodup_sortStrings (l : List String) (h : l.Nodup) :
    (sortStrings l).Nodup := ((perm_sortStrings l).nodup_iff).mpr h

theorem parseSlotIds_sortStrings (prevC : List String) (hnd : prevC.Nodup)
    (hne : ∀ s ∈ prevC, ¬s = "") :
    parseSlotIds (some (sortStrings prevC)) = sortStrings prevC := by
  rw [parseSlotIds, Option.getD_some]
  have hfe : (sortStrings prevC).filter (fun s => !(s == "")) = sortStrings prevC := by
    rw [List.filter_eq_self]
    intro s hs
    simp only [Bool.not_eq_true', beq_eq_false_iff_ne, ne_eq]
    exact hne s ((mem_sortStrings s prevC).mp hs)
  rw [hfe, List.dedup_eq_self.mpr (nodup_sortStrings prevC hnd)]

theorem bySlot_venue (rows : List FetchRow) (venueOf : String → String)
    (sid : String) (hrows : ∀ r ∈ rows, r.venueId = some (venueOf r.slotId))
    (hmem : sid ∈ currSetOf rows) :
    (bySlot rows sid).bind FetchRow.venueId = some (venueOf sid) := by
  have hs := bySlot_isSome_of_mem rows sid hmem
  rw [Option.isSome_iff_exists] at hs
  obtain ⟨fr, hfr⟩ := hs
  have hmem2 : fr ∈ rows := List.mem_reverse.mp (List.mem_of_find?_eq_some hfr)
  have hsid : fr.slotId = sid := by
    have := List.find?_some hfr
    simpa using this
  rw [hfr, Option.some_bind, hrows fr hmem2, hsid]

theorem venueStrOf_eq (rows : List FetchRow) (venueOf : String → String)
    (sid : String) (hrows : ∀ r ∈ rows, r.venueId = some (venueOf r.slotId))
    (hmem : sid ∈ currSetOf rows) :
    venueStrOf rows sid = venueOf sid := by
  rw [venueStrOf, bySlot_venue rows venueOf sid hrows hmem]
  rfl

theorem currSet_nodup (rows : List FetchRow) : (currSetOf rows).Nodup :=
  List.nodup_dedup _

theorem mem_currSet_ne_empty (rows : List FetchRow) (venueOf : String → String)
    (hrows : ∀ r ∈ rows, ¬r.slotId = "" ∧ r.venueId = some (venueOf r.slotId))
    (s : String) (hs : s ∈ currSetOf rows) : ¬s = "" := by
  simp only [currSetOf, List.mem_dedup, List.mem_map] at hs
  obtain ⟨r, hr, hsr⟩ := hs
  exact hsr ▸ (hrows r hr).1

theorem minuteFloor_lt_of_lt (a b T : Int) (hT : 60 ≤ T) (h : a < b - T) :
    minuteFloor a < minuteFloor b := by
  have h1 : a + 60 ≤ b := by omega
  have h2 : Int.ediv (a + 60) 60 ≤ Int.ediv b 60 :=
    Int.ediv_le_ediv (by norm_num) h1
  have h3 : Int.ediv (a + 60) 60 = Int.ediv a 60 + 1 := by
    have := Int.add_mul_ediv_right a 1 (by norm_num : (60 : Int) ≠ 0)
    simpa using this
  rw [minuteFloor, minuteFloor]
  omega

theorem bool_eq_of_iff {a b : Bool} (h : a = true ↔ b = true) : a = b := by
  cases a <;> cases b <;> simp_all

theorem contains_eq_of_mem_iff (l1 l2 : List String)
    (h : ∀ s, s ∈ l1 ↔ s ∈ l2) (s : String) : l1.contains s = l2.contains s :=
  bool_eq_of_iff (by rw [contains_iff_mem, contains_iff_mem]; exact h s)

theorem mem_prevVenueIds (proj : List SlotAvailabilityRow) (bid : String)
    (P : List String) (v : String) :
    v ∈ prevVenueIdsOf proj bid P ↔
      ∃ row ∈ proj, row.bucketId = bid ∧ row.slotId ∈ P ∧
        row.venueId = some v := by
  rw [prevVenueIdsOf]
  by_cases h : P.isEmpty
  · rw [if_pos h]
    rw [List.isEmpty_iff] at h
    subst h
    simp
  · rw [if_neg h]
    constructor
    · intro hv
      simp only [List.mem_dedup, List.mem_filterMap, List.mem_filter,
        Bool.and_eq_true, beq_iff_eq] at hv
      obtain ⟨a, ⟨ha, ⟨hb, hc⟩, _⟩, hvv⟩ := hv
      exact ⟨a, ha, hb, (contains_iff_mem _ _).mp hc, hvv⟩
    · rintro ⟨a, ha, hb, hc, hv⟩
      simp only [List.mem_dedup, List.mem_filterMap, List.mem_filter,
        Bool.and_eq_true, beq_iff_eq]
      exact ⟨a, ⟨ha, ⟨hb, (contains_iff_mem _ _).mpr hc⟩, by rw [hv]; rfl⟩, hv⟩

theorem pollAdded_eq_spec (rows : List FetchRow) (brow : BucketRow)
    (prevC : List String) (hnd : prevC.Nodup) (hne : ∀ s ∈ prevC, ¬s = "")
    (hprev : brow.prevSlotIds = some (sortStrings prevC)) :
    pollAdded rows brow =
      (currSetOf rows).filter (fun s => !(prevC.contains s)) := by
  rw [pollAdded, pollPrevSet, hprev, parseSlotIds_sortStrings prevC hnd hne,
    addedOf]
  apply List.filter_congr
  intro s _
  exact congrArg (fun b => !b) (contains_eq_of_mem_iff (sortStrings prevC) prevC
    (fun t => mem_sortStrings t prevC) s)

theorem pollDropsVenueZero_eq_spec (db : DB) (bid : String)
    (rows : List FetchRow) (brow : BucketRow) (venueOf : String → String)
    (prevC : List String) (hnd : prevC.Nodup) (hne : ∀ s ∈ prevC, ¬s = "")
    (hprev : brow.prevSlotIds = some (sortStrings prevC))
    (hrows : ∀ r ∈ rows, r.venueId = some (venueOf r.slotId))
    (hP1 : ∀ row ∈ db.slotAvailability,
      row.bucketId = bid ∧ row.venueId = some (venueOf row.slotId))
    (hP2 : ∀ s ∈ prevC, ∃ row ∈ db.slotAvailability, row.slotId = s) :
    pollDropsVenueZero db bid rows brow =
      specVenueFilter venueOf prevC (currSetOf rows) := by
  have hPP : pollPrevSet brow = sortStrings prevC := by
    rw [pollPrevSet, hprev, parseSlotIds_sortStrings prevC hnd hne]
  rw [pollDropsVenueZero, dropsVenueZeroOf, hPP,
    pollAdded_eq_spec rows brow prevC hnd hne hprev, specVenueFilter]
  apply List.filter_congr
  intro sid hsid
  have hsidc : sid ∈ currSetOf rows := (List.mem_filter.mp hsid).1
  rw [venueStrOf_eq rows venueOf sid hrows hsidc]
  apply congrArg (fun b => !b)
  apply bool_eq_of_iff
  rw [contains_iff_mem, mem_prevVenueIds, contains_iff_mem]
  constructor
  · rintro ⟨row, hrow, hb, hs, hv⟩
    rw [(hP1 row hrow).2] at hv
    have hveq : venueOf row.slotId = venueOf sid := Option.some.inj hv
    exact List.mem_map.mpr ⟨row.slotId, (mem_sortStrings _ _).mp hs, hveq⟩
  · intro hv
    obtain ⟨s, hsP, hveq⟩ := List.mem_map.mp hv
    obtain ⟨row, hrow, hrs⟩ := hP2 s hsP
    exact ⟨row, hrow, (hP1 row hrow).1,
      by rw [hrs]; exact (mem_sortStrings s prevC).mpr hsP,
      by rw [(hP1 row hrow).2, hrs, hveq]⟩

theorem pollRecentlyNotified_eq (cfg : PollConfig) (db : DB) (bid : String)
    (now : Int) (hist : List (String × Int))
    (hE1 : db.dropEvents.map (fun e => (e.slotId, e.openedAt)) = hist)
    (hE2 : ∀ e ∈ db.dropEvents, e.bucketId = bid)
    (sid : String) :
    (pollRecentlyNotified cfg db bid now).contains sid =
      hist.any (fun pr => pr.1 == sid &&
        decide (now - cfg.dedupeMinutes * 60 ≤ pr.2)) := by
  apply bool_eq_of_iff
  rw [contains_iff_mem, pollRecentlyNotified, mem_recentlyNotified,
    List.any_eq_true]
  subst hE1
  constructor
  · rintro ⟨e, he, _, hcut, hs⟩
    exact ⟨(e.slotId, e.openedAt), List.mem_map.mpr ⟨e, he, rfl⟩,
      by simp [hs, hcut]⟩
  · rintro ⟨pr, hpr, hcond⟩
    obtain ⟨e, he, hpe⟩ := List.mem_map.mp hpr
    subst hpe
    simp only [Bool.and_eq_true, beq_iff_eq, decide_eq_true_eq] at hcond
    exact ⟨e, he, hE2 e he, hcond.2, hcond.1⟩

theorem pollDropsToEmit_eq_spec (cfg : PollConfig) (db : DB) (bid : String)
    (rows : List FetchRow) (now : Int) (brow : BucketRow)
    (venueOf : String → String) (prevC : List String)
    (hist : List (String × Int))
    (hnd : prevC.Nodup) (hne : ∀ s ∈ prevC, ¬s = "")
    (hprev : brow.prevSlotIds = some (sortStrings prevC))
    (hrows : ∀ r ∈ rows, r.venueId = some (venueOf r.slotId))
    (hP1 : ∀ row ∈ db.slotAvailability,
      row.bucketId = bid ∧ row.venueId = some (venueOf row.slotId))
    (hP2 : ∀ s ∈ prevC, ∃ row ∈ db.slotAvailability, row.slotId = s)
    (hE1 : db.dropEvents.map (fun e => (e.slotId, e.openedAt)) = hist)
    (hE2 : ∀ e ∈ db.dropEvents, e.bucketId = bid) :
    pollDropsToEmit cfg db bid rows now brow =
      specTTLFilter (cfg.dedupeMinutes * 60) now hist
        (specVenueFilter venueOf prevC (currSetOf rows)) := by
  rw [pollDropsToEmit,
    pollDropsVenueZero_eq_spec db bid rows brow venueOf prevC hnd hne hprev
      hrows hP1 hP2, specTTLFilter]
  apply List.filter_congr
  intro sid _
  exact congrArg (fun b => !b)
    (pollRecentlyNotified_eq cfg db bid now hist hE1 hE2 sid)

theorem insertDropEvents_append_of_fresh :
    ∀ (newRows table : List DropEventRow),
    (∀ nr ∈ newRows, ∀ e ∈ table, ¬e.dedupeKey = nr.dedupeKey) →
    newRows.Pairwise (fun a b => ¬a.dedupeKey = b.dedupeKey) →
    insertDropEvents table newRows = table ++ newRows := by
  intro newRows
  induction newRows with
  | nil => intro table _ _; simp [insertDropEvents]
  | cons e rest ih =>
      intro table hfresh hpw
      rw [insertDropEvents_cons]
      have hany : table.any (fun e0 => decide (e0.dedupeKey = e.dedupeKey)) =
          false := by
        rw [List.any_eq_false]
        intro e0 he0
        simpa using hfresh e (List.mem_cons_self e rest) e0 he0
      rw [if_neg (by simp [hany])]
      rw [List.pairwise_cons] at hpw
      have hih := ih (table ++ [e]) ?_ hpw.2
      · rw [hih, List.append_assoc]
        rfl
      · intro nr hnr e0 he0
        rcases List.mem_append.mp he0 with h0 | h0
        · exact hfresh nr (List.mem_cons_of_mem e hnr) e0 h0
        · rw [List.mem_singleton.mp h0]
          exact hpw.1 nr hnr

theorem upsertProjRow_forall (Q : SlotAvailabilityRow → Prop)
    (table : List SlotAvailabilityRow) (new : SlotAvailabilityRow)
    (hQ : ∀ t ∈ table, Q t) (hnew : Q new) :
    ∀ t ∈ upsertProjRow table new, Q t := by
  intro t ht
  rw [upsertProjRow] at ht
  by_cases hc : table.any (projKeyMatch new.bucketId new.slotId)
  · rw [if_pos hc] at ht
    obtain ⟨t0, ht0, heq⟩ := List.mem_map.mp ht
    by_cases hk : projKeyMatch new.bucketId new.slotId t0
    · rw [if_pos hk] at heq
      by_cases hu : t0.updatedAt < new.updatedAt
      · rw [if_pos hu] at heq; exact heq ▸ hnew
      · rw [if_neg hu] at heq; exact heq ▸ hQ t0 ht0
    · rw [if_neg hk] at heq; exact heq ▸ hQ t0 ht0
  · rw [if_neg hc] at ht
    rcases List.mem_append.mp ht with h | h
    · exact hQ t h
    · rw [List.mem_singleton.mp h]; exact hnew

theorem applyProjUpserts_forall (Q : SlotAvailabilityRow → Prop) :
    ∀ (newRows table : List SlotAvailabilityRow),
    (∀ t ∈ table, Q t) → (∀ nr ∈ newRows, Q nr) →
    ∀ t ∈ applyProjUpserts table newRows, Q t := by
  intro newRows
  induction newRows with
  | nil => intro table hQ _; exact hQ
  | cons nr rest ih =>
      intro table hQ hnew
      exact ih _
        (upsertProjRow_forall Q table nr hQ (hnew nr (List.mem_cons_self nr rest)))
        (fun x hx => hnew x (List.mem_cons_of_mem nr hx))

theorem exists_slotId_upsert_mono (table : List SlotAvailabilityRow)
    (new : SlotAvailabilityRow) (s : String)
    (h : ∃ row ∈ table, row.slotId = s) :
    ∃ row ∈ upsertProjRow table new, row.slotId = s := by
  obtain ⟨row, hrow, hs⟩ := h
  rw [upsertProjRow]
  by_cases hc : table.any (projKeyMatch new.bucketId new.slotId)
  · rw [if_pos hc]
    refine ⟨_, List.mem_map.mpr ⟨row, hrow, rfl⟩, ?_⟩
    by_cases hk : projKeyMatch new.bucketId new.slotId row
    · rw [if_pos hk]
      have hrs : row.slotId = new.slotId :=
        ((projKeyMatch_eq_true_iff _ _ _).mp hk).2
      by_cases hu : row.updatedAt < new.updatedAt
      · rw [if_pos hu]
        show new.slotId = s
        rw [← hrs]; exact hs
      · rw [if_neg hu]; exact hs
    · rw [if_neg hk]; exact hs
  · rw [if_neg hc]
    exact ⟨row, List.mem_append_left _ hrow, hs⟩

theorem exists_slotId_upsert_self (table : List SlotAvailabilityRow)
    (new : SlotAvailabilityRow) :
    ∃ row ∈ upsertProjRow table new, row.slotId = new.slotId := by
  rw [upsertProjRow]
  by_cases hc : table.any (projKeyMatch new.bucketId new.slotId)
  · rw [if_pos hc]
    obtain ⟨t0, ht0, hk⟩ := List.any_eq_true.mp hc
    refine ⟨_, List.mem_map.mpr ⟨t0, ht0, rfl⟩, ?_⟩
    have ht0s : t0.slotId = new.slotId :=
      ((projKeyMatch_eq_true_iff _ _ _).mp hk).2
    rw [if_pos hk]
    by_cases hu : t0.updatedAt < new.updatedAt
    · rw [if_pos hu]
    · rw [if_neg hu]; exact ht0s
  · rw [if_neg hc]
    exact ⟨new, List.mem_append_right _ (List.mem_singleton_self new), rfl⟩

theorem applyProjUpserts_exists_slotId :
    ∀ (newRows table : List SlotAvailabilityRow) (s : String),
    ((∃ row ∈ table, row.slotId = s) ∨ (∃ nr ∈ newRows, nr.slotId = s)) →
    ∃ row ∈ applyProjUpserts table newRows, row.slotId = s := by
  intro newRows
  induction newRows with
  | nil =>
      intro table s h
      rcases h with h | h
      · exact h
      · obtain ⟨nr, hnr, _⟩ := h; cases hnr
  | cons nr rest ih =>
      intro table s h
      apply ih (upsertProjRow table nr) s
      rcases h with h | h
      · exact Or.inl (exists_slotId_upsert_mono table nr s h)
      · rcases h with ⟨nr0, hnr0, hs⟩
        rcases List.mem_cons.mp hnr0 with h0 | h0
        · subst h0
          obtain ⟨row, hrow, hrs⟩ := exists_slotId_upsert_self table nr0
          exact Or.inl ⟨row, hrow, hrs.trans hs⟩
        · exact Or.inr ⟨nr0, h0, hs⟩

theorem markClosed_map_slotIds (proj : List SlotAvailabilityRow) (bid2 : String)
    (closedIds : List String) (now : Int) (runId : String) :
    (markClosed proj bid2 closedIds now runId).map (fun t => t.slotId) =
      proj.map (fun t => t.slotId) := by
  rw [markClosed]
  by_cases hc : closedIds.isEmpty
  · rw [if_pos hc]
  · rw [if_neg hc, List.map_map]
    apply List.map_congr_left
    intro t _
    by_cases hk : t.bucketId = bid2 ∧ t.slotId ∈ closedIds <;>
      simp [Function.comp, hk]

theorem exists_slotId_markClosed (proj : List SlotAvailabilityRow)
    (bid2 : String) (closedIds : List String) (now : Int) (runId : String)
    (s : String) (h : ∃ row ∈ proj, row.slotId = s) :
    ∃ row ∈ markClosed proj bid2 closedIds now runId, row.slotId = s := by
  obtain ⟨row, hrow, hs⟩ := h
  have hm : s ∈ (markClosed proj bid2 closedIds now runId).map
      (fun t => t.slotId) := by
    rw [markClosed_map_slotIds]
    exact List.mem_map.mpr ⟨row, hrow, hs⟩
  obtain ⟨row2, hrow2, hs2⟩ := List.mem_map.mp hm
  exact ⟨row2, hrow2, hs2⟩

theorem markClosed_venue (proj : List SlotAvailabilityRow) (bid2 : String)
    (closedIds : List String) (now : Int) (runId : String)
    (bid : String) (venueOf : String → String)
    (hQ : ∀ row ∈ proj,
      row.bucketId = bid ∧ row.venueId = some (venueOf row.slotId)) :
    ∀ row ∈ markClosed proj bid2 closedIds now runId,
      row.bucketId = bid ∧ row.venueId = some (venueOf row.slotId) := by
  intro row hrow
  rw [markClosed] at hrow
  by_cases hc : closedIds.isEmpty
  · rw [if_pos hc] at hrow; exact hQ row hrow
  · rw [if_neg hc] at hrow
    obtain ⟨t0, ht0, heq⟩ := List.mem_map.mp hrow
    by_cases hk : t0.bucketId == bid2 && closedIds.contains t0.slotId
    · rw [if_pos hk] at heq
      subst heq
      exact ⟨(hQ t0 ht0).1, (hQ t0 ht0).2⟩
    · rw [if_neg hk] at heq; exact heq ▸ hQ t0 ht0

theorem pollDropRows_shape (cfg : PollConfig) (db : DB) (bid : String)
    (rows : List FetchRow) (now : Int) (brow : BucketRow) :
    ∀ nr ∈ pollDropRows cfg db bid rows now brow,
      nr.bucketId = bid ∧ nr.pushSentAt = none ∧ nr.openedAt = now ∧
      nr.dedupeKey = ⟨bid, nr.slotId, minuteFloor now⟩ ∧
      nr.slotId ∈ pollDropsToEmit cfg db bid rows now brow := by
  intro nr hnr
  rw [pollDropRows] at hnr
  obtain ⟨sid, hsid, heq⟩ := List.mem_map.mp hnr
  subst heq
  exact ⟨rfl, rfl, rfl, rfl, hsid⟩

theorem pollDropRows_pairwise_keys (cfg : PollConfig) (db : DB) (bid : String)
    (rows : List FetchRow) (now : Int) (brow : BucketRow) :
    (pollDropRows cfg db bid rows now brow).Pairwise
      (fun a b => ¬a.dedupeKey = b.dedupeKey) := by
  have h := pairwise_slotIds_dropRows cfg db bid rows now brow
  apply List.Pairwise.imp_of_mem ?_ h
  intro a b ha hb hab hk
  have hka := (pollDropRows_shape cfg db bid rows now brow a ha).2.2.2.1
  have hkb := (pollDropRows_shape cfg db bid rows now brow b hb).2.2.2.1
  rw [hka, hkb] at hk
  exact hab (congrArg DedupeKey.keySlot hk)

theorem pollNormal_dropEvents_eq (cfg : PollConfig) (db : DB) (bid : String)
    (rows : List FetchRow) (now : Int) (runId : String) (brow : BucketRow)
    (hpush : ∀ e ∈ pollEvents1 cfg db bid rows now brow, e.pushSentAt = none) :
    (pollNormal cfg db bid rows now runId brow).db.dropEvents =
      pollEvents1 cfg db bid rows now brow := by
  have hev : (pollNormal cfg db bid rows now runId brow).db.dropEvents =
      (if (pollClosedIds db bid rows now runId brow).isEmpty then
        pollEvents1 cfg db bid rows now brow
      else (pollEvents1 cfg db bid rows now brow).filter (fun e =>
        !(e.bucketId == bid &&
          (pollClosedIds db bid rows now runId brow).contains e.slotId &&
          e.pushSentAt.isSome))) := rfl
  rw [hev]
  by_cases hc : (pollClosedIds db bid rows now runId brow).isEmpty
  · rw [if_pos hc]
  · rw [if_neg hc]
    apply List.filter_eq_self.mpr
    intro e he
    rw [hpush e he]
    simp

theorem bucketFind_singleton (db : DB) (brow : BucketRow) (bid : String)
    (hb : db.buckets = [brow]) (hbid : brow.bucketId = bid) :
    bucketFind db bid = some brow := by
  rw [bucketFind, hb, List.find?_cons_of_pos _ (by simp [hbid])]

theorem seqInv_step (cfg : PollConfig) (bid dateStr timeSlot : String)
    (venueOf : String → String) (db : DB) (prevC : List String)
    (hist : List (String × Int)) (p : PollInput)
    (hT : 1 ≤ cfg.dedupeMinutes)
    (hinv : seqInv bid venueOf db prevC hist)
    (hrows : ∀ r ∈ p.rows,
      ¬r.slotId = "" ∧ r.venueId = some (venueOf r.slotId)) :
    seqInv bid venueOf
      (runPollForBucket cfg db bid dateStr timeSlot p.rows p.time p.runId).db
      (currSetOf p.rows)
      (hist ++ (specTTLFilter (cfg.dedupeMinutes * 60) p.time hist
        (specVenueFilter venueOf prevC (currSetOf p.rows))).map
          (fun s => (s, p.time))) := by
  obtain ⟨⟨brow, hbuck, hbid, ⟨bl, hbl⟩, hprev⟩, hnd, hne, hP1, hP2, hE1, hE2⟩ :=
    hinv
  have hrows1 : ∀ r ∈ p.rows, r.venueId = some (venueOf r.slotId) :=
    fun r hr => (hrows r hr).2
  have hfind : bucketFind db bid = some brow :=
    bucketFind_singleton db brow bid hbuck hbid
  have hrun : runPollForBucket cfg db bid dateStr timeSlot p.rows p.time
      p.runId = pollNormal cfg db bid p.rows p.time p.runId brow := by
    simp [runPollForBucket, hfind, hbl]
  rw [hrun]
  have hemit : pollDropsToEmit cfg db bid p.rows p.time brow =
      specTTLFilter (cfg.dedupeMinutes * 60) p.time hist
        (specVenueFilter venueOf prevC (currSetOf p.rows)) :=
    pollDropsToEmit_eq_spec cfg db bid p.rows p.time brow venueOf prevC hist
      hnd hne hprev hrows1 hP1 hP2 hE1 (fun e he => (hE2 e he).1)
  have hT60 : (60 : Int) ≤ cfg.dedupeMinutes * 60 := by
    have h := mul_le_mul_of_nonneg_right hT (by norm_num : (0 : Int) ≤ 60)
    simpa using h
  have hfresh : ∀ nr ∈ pollDropRows cfg db bid p.rows p.time brow,
      ∀ e ∈ db.dropEvents, ¬e.dedupeKey = nr.dedupeKey := by
    intro nr hnr e he hk
    obtain ⟨hnb, hnp, hno, hnk, hns⟩ :=
      pollDropRows_shape cfg db bid p.rows p.time brow nr hnr
    obtain ⟨heb, hep, hek⟩ := hE2 e he
    rw [hek, hnk] at hk
    have hslot : e.slotId = nr.slotId := congrArg DedupeKey.keySlot hk
    have hmin : minuteFloor e.openedAt = minuteFloor p.time :=
      congrArg DedupeKey.keyMinute hk
    have hrecent := pollDropsToEmit_not_recent cfg db bid p.rows p.time brow
      nr.slotId hns e he heb hslot
    have hlt := minuteFloor_lt_of_lt e.openedAt p.time
      (cfg.dedupeMinutes * 60) hT60 hrecent
    omega
  have hins : pollEvents1 cfg db bid p.rows p.time brow =
      db.dropEvents ++ pollDropRows cfg db bid p.rows p.time brow := by
    rw [pollEvents1]
    exact insertDropEvents_append_of_fresh _ _ hfresh
      (pollDropRows_pairwise_keys cfg db bid p.rows p.time brow)
  have hpushall : ∀ e ∈ pollEvents1 cfg db bid p.rows p.time brow,
      e.pushSentAt = none := by
    intro e he
    rw [hins] at he
    rcases List.mem_append.mp he with h | h
    · exact (hE2 e h).2.1
    · exact (pollDropRows_shape cfg db bid p.rows p.time brow e h).2.1
  have hevents : (pollNormal cfg db bid p.rows p.time p.runId
      brow).db.dropEvents =
      db.dropEvents ++ pollDropRows cfg db bid p.rows p.time brow := by
    rw [pollNormal_dropEvents_eq cfg db bid p.rows p.time p.runId brow
      hpushall, hins]
  have hbuck2 : (pollNormal cfg db bid p.rows p.time p.runId brow).db.buckets =
      db.buckets.map (fun b =>
        if b.bucketId == bid then
          { b with
              prevSlotIds := some (sortStrings (currSetOf p.rows)),
              scannedAt := some p.time }
        else b) := rfl
  have hproj2 : (pollNormal cfg db bid p.rows p.time p.runId
      brow).db.slotAvailability =
      markClosed (pollProj1 db bid p.rows p.time p.runId brow) bid
        (pollClosedIds db bid p.rows p.time p.runId brow) p.time p.runId := rfl
  rw [seqInv]
  refine ⟨?_, currSet_nodup p.rows,
    mem_currSet_ne_empty p.rows venueOf hrows, ?_, ?_, ?_, ?_⟩
  · refine ⟨{ brow with
        prevSlotIds := some (sortStrings (currSetOf p.rows)),
        scannedAt := some p.time }, ?_, hbid, ⟨bl, hbl⟩, rfl⟩
    rw [hbuck2, hbuck]
    simp [hbid]
  · rw [hproj2]
    apply markClosed_venue _ _ _ _ _ bid venueOf
    rw [pollProj1]
    apply applyProjUpserts_forall _ _ _ hP1
    intro nr hnr
    rw [pollSlotRows] at hnr
    obtain ⟨sid, hsid, heq⟩ := List.mem_map.mp hnr
    subst heq
    refine ⟨rfl, ?_⟩
    have hsc : sid ∈ currSetOf p.rows :=
      ((mem_pollAdded p.rows brow sid).mp hsid).1
    exact bySlot_venue p.rows venueOf sid hrows1 hsc
  · intro s hs
    rw [hproj2]
    apply exists_slotId_markClosed
    rw [pollProj1]
    apply applyProjUpserts_exists_slotId
    by_cases hadd : s ∈ pollAdded p.rows brow
    · right
      rw [pollSlotRows]
      exact ⟨buildSlotAvailabilityRow bid s (bySlot p.rows s) p.time p.runId,
        List.mem_map.mpr ⟨s, hadd, rfl⟩, rfl⟩
    · left
      have hsp : s ∈ pollPrevSet brow := by
        by_contra hns
        exact hadd ((mem_pollAdded p.rows brow s).mpr ⟨hs, hns⟩)
      have hsP : s ∈ prevC := by
        rw [pollPrevSet, hprev, parseSlotIds_sortStrings prevC hnd hne] at hsp
        exact (mem_sortStrings s prevC).mp hsp
      exact hP2 s hsP
  · rw [hevents, List.map_append, hE1]
    congr 1
    rw [pollDropRows, List.map_map, hemit]
    apply List.map_congr_left
    intro sid _
    rfl
  · intro e he
    rw [hevents] at he
    rcases List.mem_append.mp he with h | h
    · exact hE2 e h
    · obtain ⟨h1, h2, h3, h4, _⟩ :=
        pollDropRows_shape cfg db bid p.rows p.time brow e h
      refine ⟨h1, h2, ?_⟩
      rw [h3]
      exact h4

theorem seqInv_base (cfg : PollConfig) (bid dateStr timeSlot : String)
    (venueOf : String → String) (p0 : PollInput)
    (hrows : ∀ r ∈ p0.rows,
      ¬r.slotId = "" ∧ r.venueId = some (venueOf r.slotId)) :
    seqInv bid venueOf
      (runPollForBucket cfg DB.empty bid dateStr timeSlot p0.rows p0.time
        p0.runId).db
      (currSetOf p0.rows) [] := by
  have hfind : bucketFind DB.empty bid = none := rfl
  have hrun : runPollForBucket cfg DB.empty bid dateStr timeSlot p0.rows
      p0.time p0.runId =
      pollBootstrapMissing DB.empty bid dateStr timeSlot p0.rows p0.time
        p0.runId := by
    simp [runPollForBucket, hfind]
  rw [hrun]
  have hproj : (pollBootstrapMissing DB.empty bid dateStr timeSlot p0.rows
      p0.time p0.runId).db.slotAvailability =
      bootstrapSlotAvailability [] bid p0.rows (currSetOf p0.rows) p0.time
        p0.runId := rfl
  rw [seqInv]
  refine ⟨?_, currSet_nodup p0.rows,
    mem_currSet_ne_empty p0.rows venueOf hrows, ?_, ?_, rfl, ?_⟩
  · exact ⟨⟨bid, dateStr, timeSlot, some (sortStrings (currSetOf p0.rows)),
      some (sortStrings (currSetOf p0.rows)), some p0.time⟩, rfl, rfl,
      ⟨sortStrings (currSetOf p0.rows), rfl⟩, rfl⟩
  · rw [hproj, bootstrapSlotAvailability]
    by_cases hc : (currSetOf p0.rows).isEmpty
    · rw [if_pos hc]
      intro row hrow
      exact absurd hrow (List.not_mem_nil row)
    · rw [if_neg hc]
      refine applyProjUpserts_forall
        (fun row => row.bucketId = bid ∧ row.venueId = some (venueOf row.slotId))
        _ _ (fun t ht => absurd ht (List.not_mem_nil t)) ?_
      intro nr hnr
      obtain ⟨sid, hsid, heq⟩ := List.mem_map.mp hnr
      subst heq
      have hsc : sid ∈ currSetOf p0.rows := (List.mem_filter.mp hsid).1
      exact ⟨rfl,
        bySlot_venue p0.rows venueOf sid (fun r hr => (hrows r hr).2) hsc⟩
  · intro s hs
    rw [hproj, bootstrapSlotAvailability]
    have hc : (currSetOf p0.rows).isEmpty = false := by
      rw [List.isEmpty_eq_false_iff_exists_mem]
      exact ⟨s, hs⟩
    rw [hc]
    simp only [Bool.false_eq_true, if_false]
    apply applyProjUpserts_exists_slotId
    right
    refine ⟨buildSlotAvailabilityRow bid s (bySlot p0.rows s) p0.time p0.runId,
      List.mem_map.mpr ⟨s, ?_, rfl⟩, rfl⟩
    rw [List.mem_filter]
    exact ⟨hs, bySlot_isSome_of_mem p0.rows s hs⟩
  · intro e he
    exact absurd he (List.not_mem_nil e)

theorem seqInv_fold (cfg : PollConfig) (bid dateStr timeSlot : String)
    (venueOf : String → String) (hT : 1 ≤ cfg.dedupeMinutes) :
    ∀ (rest : List PollInput) (db : DB) (prevC : List String)
      (hist : List (String × Int)),
    seqInv bid venueOf db prevC hist →
    (∀ p ∈ rest, ∀ r ∈ p.rows,
      ¬r.slotId = "" ∧ r.venueId = some (venueOf r.slotId)) →
    ∃ prevC2,
      seqInv bid venueOf (runPollSeq cfg bid dateStr timeSlot db rest) prevC2
        (specEmissionsFrom (cfg.dedupeMinutes * 60) venueOf prevC hist
          (rest.map (fun q => (currSetOf q.rows, q.time)))) ∧
      ((rest = [] ∧ prevC2 = prevC) ∨
        (∃ pl, rest.getLast? = some pl ∧ prevC2 = currSetOf pl.rows)) := by
  intro rest
  induction rest with
  | nil =>
      intro db prevC hist hinv _
      exact ⟨prevC, hinv, Or.inl ⟨rfl, rfl⟩⟩
  | cons p rest ih =>
      intro db prevC hist hinv hgood
      have hstep := seqInv_step cfg bid dateStr timeSlot venueOf db prevC hist
        p hT hinv (hgood p (List.mem_cons_self p rest))
      have hseq : runPollSeq cfg bid dateStr timeSlot db (p :: rest) =
          runPollSeq cfg bid dateStr timeSlot
            (runPollForBucket cfg db bid dateStr timeSlot p.rows p.time
              p.runId).db rest := rfl
      have hspec : specEmissionsFrom (cfg.dedupeMinutes * 60) venueOf prevC
          hist ((p :: rest).map (fun q => (currSetOf q.rows, q.time))) =
          specEmissionsFrom (cfg.dedupeMinutes * 60) venueOf
            (currSetOf p.rows)
            (hist ++ (specTTLFilter (cfg.dedupeMinutes * 60) p.time hist
              (specVenueFilter venueOf prevC (currSetOf p.rows))).map
                (fun s => (s, p.time)))
            (rest.map (fun q => (currSetOf q.rows, q.time))) := rfl
      rw [hseq, hspec]
      obtain ⟨prevC2, hinv2, hlast⟩ := ih _ _ _ hstep
        (fun q hq => hgood q (List.mem_cons_of_mem p hq))
      refine ⟨prevC2, hinv2, ?_⟩
      rcases hlast with ⟨hrnil, hpc⟩ | ⟨pl, hpl, hpc⟩
      · subst hrnil
        exact Or.inr ⟨p, by simp, hpc⟩
      · right
        refine ⟨pl, ?_, hpc⟩
        cases rest with
        | nil => cases hpl
        | cons q rest2 =>
            rw [List.getLast?_cons_cons]
            exact hpl

/-- Claim C3: feeding snapshots `C1, ..., Ck` to one bucket from the empty
store, the final `prev_slot_ids` is the sorted last snapshot, and the drop
events accumulated over the whole sequence read back exactly as the spec's
emission multiset: the union over `i >= 2` of `Ci - C(i-1)` minus the members
whose venue already had a slot in `C(i-1)` and minus the TTL-deduped members.
Hypotheses: the dedupe TTL is at least one minute (`NOTIFIED_DEDUPE_MINUTES >=
1`, so same-minute dedupe-key collisions cannot drop an insert), slot ids are
non-empty strings (so `_parse_slot_ids_json` round-trips the stored set), and
each slot's venue is a function `venueOf` of the slot id across the sequence
(the spec's venue criterion presumes a venue per slot). -/
theorem pollSeq_prev_and_drops (cfg : PollConfig)
    (bid dateStr timeSlot : String) (venueOf : String → String)
    (polls : List PollInput) (pLast : PollInput)
    (hT : 1 ≤ cfg.dedupeMinutes)
    (hrows : ∀ p ∈ polls, ∀ r ∈ p.rows,
      ¬r.slotId = "" ∧ r.venueId = some (venueOf r.slotId))
    (hlast : polls.getLast? = some pLast) :
    (∃ brow, bucketFind (runPollSeq cfg bid dateStr timeSlot DB.empty polls)
        bid = some brow ∧
      brow.prevSlotIds = some (sortStrings (currSetOf pLast.rows))) ∧
    (runPollSeq cfg bid dateStr timeSlot DB.empty polls).dropEvents.map
        (fun e => (e.slotId, e.openedAt)) =
      specSeqEmissions (cfg.dedupeMinutes * 60) venueOf polls := by
  cases polls with
  | nil => cases hlast
  | cons p0 rest =>
      have hbase := seqInv_base cfg bid dateStr timeSlot venueOf p0
        (hrows p0 (List.mem_cons_self p0 rest))
      obtain ⟨prevC2, hinv, hl⟩ := seqInv_fold cfg bid dateStr timeSlot
        venueOf hT rest _ (currSetOf p0.rows) [] hbase
        (fun q hq => hrows q (List.mem_cons_of_mem p0 hq))
      have hseq : runPollSeq cfg bid dateStr timeSlot DB.empty (p0 :: rest) =
          runPollSeq cfg bid dateStr timeSlot
            (runPollForBucket cfg DB.empty bid dateStr timeSlot p0.rows
              p0.time p0.runId).db rest := rfl
      have hspecdef : specSeqEmissions (cfg.dedupeMinutes * 60) venueOf
          (p0 :: rest) =
          specEmissionsFrom (cfg.dedupeMinutes * 60) venueOf
            (currSetOf p0.rows) []
            (rest.map (fun q => (currSetOf q.rows, q.time))) := rfl
      rw [hseq, hspecdef]
      have hpc2 : prevC2 = currSetOf pLast.rows := by
        rcases hl with ⟨hrnil, hpc⟩ | ⟨pl, hpl, hpc⟩
        · subst hrnil
          have hp0 : p0 = pLast := by simpa using hlast
          rw [hpc, hp0]
        · cases rest with
          | nil => cases hpl
          | cons q rest2 =>
              rw [List.getLast?_cons_cons] at hlast
              rw [hpl] at hlast
              rw [hpc, Option.some.inj hlast]
      rw [seqInv] at hinv
      obtain ⟨⟨brow, hbuck, hbid, _, hprev⟩, _, _, _, _, hE1, _⟩ := hinv
      constructor
      · exact ⟨brow, bucketFind_singleton _ brow bid hbuck hbid,
          by rw [hprev, hpc2]⟩
      · exact hE1

/-- Witness for claim C3 at a concrete two-poll sequence: bootstrap on
`[sA]`, then observe `[sA, sB]` an hour later; the final `prev_slot_ids` is
`[sA, sB]` and exactly one drop `(sB, 3600)` is emitted, matching the spec's
emission multiset. -/
theorem pollSeq_prev_and_drops_witness :
    (∃ brow, bucketFind (runPollSeq ⟨30⟩ "b1" "2026-02-14" "20:30" DB.empty
        [⟨[⟨"sA", some "vA"⟩], 0, "r1"⟩,
         ⟨[⟨"sA", some "vA"⟩, ⟨"sB", some "vB"⟩], 3600, "r2"⟩]) "b1" =
        some brow ∧
      brow.prevSlotIds = some (sortStrings (currSetOf
        [⟨"sA", some "vA"⟩, ⟨"sB", some "vB"⟩]))) ∧
    (runPollSeq ⟨30⟩ "b1" "2026-02-14" "20:30" DB.empty
        [⟨[⟨"sA", some "vA"⟩], 0, "r1"⟩,
         ⟨[⟨"sA", some "vA"⟩, ⟨"sB", some "vB"⟩], 3600, "r2"⟩]).dropEvents.map
        (fun e => (e.slotId, e.openedAt)) =
      specSeqEmissions (30 * 60) (fun s => if s == "sA" then "vA" else "vB")
        [⟨[⟨"sA", some "vA"⟩], 0, "r1"⟩,
         ⟨[⟨"sA", some "vA"⟩, ⟨"sB", some "vB"⟩], 3600, "r2"⟩] :=
  pollSeq_prev_and_drops ⟨30⟩ "b1" "2026-02-14" "20:30"
    (fun s => if s == "sA" then "vA" else "vB")
    [⟨[⟨"sA", some "vA"⟩], 0, "r1"⟩,
     ⟨[⟨"sA", some "vA"⟩, ⟨"sB", some "vB"⟩], 3600, "r2"⟩]
    ⟨[⟨"sA", some "vA"⟩, ⟨"sB", some "vB"⟩], 3600, "r2"⟩
    (by decide) (by decide) rfl
